import Mathlib

/-!
Shallow embedding of the gohbase thrift connection pool (pool.go,
connection.go, options.go) and verification of its specification claims.

Conventions of the embedding:
- Go `time.Duration` / `time.Time` values are `Int` nanoseconds.
- Go `uint32` arithmetic is `Nat` with explicit `% 2^32`.
- `*ThriftConn` pointers are `Nat` identifiers into a heap
  `Nat -> ConnData`; pointer equality is id equality.
- Goroutines spawned with `go` (addIdleConn, tryDial) are modelled as
  pending-task counters plus explicit completion transitions in the step
  relation; dial outcomes are parameters of those transitions.
- Fields `pendingIdleDials`, `tryDialActive`, `checkedOut`, `leaked` and
  `panicked` are instrumentation of the environment (scheduler and callers),
  not program variables: they do not influence any program-variable update.
-/

namespace Gohbase

/-- Abstract Go `error` values surfaced by the pool. -/
inductive Err where
  | errClosed
  | errPoolTimeout
  | dialFail (n : Nat)
  | closeFail (n : Nat)
  deriving DecidableEq, Repr

/-- Options (options.go).  Durations are nanoseconds. -/
structure Options where
  Addr : String
  MaxRetries : Int
  DialTimeout : Int
  ReadTimeout : Int
  WriteTimeout : Int
  IdleTimeout : Int
  PoolTimeout : Int
  IdleCheckFrequency : Int
  PoolSize : Int
  MinIdleConns : Int
  deriving DecidableEq, Repr

def nsSecond : Int := 1000000000

/-- `(*Options).init` from options.go, with `runtime.NumCPU()` passed in as
a parameter.  NOTE: this function exists in the source but is never called
by `NewHBase`/`NewThriftConnPool`. -/
def Options.initF (numCPU : Int) (opt : Options) : Options :=
  let o1 := if opt.Addr = "" then { opt with Addr := "localhost:9090" } else opt
  let o2 := if o1.PoolSize = 0 then { o1 with PoolSize := 10 * numCPU } else o1
  let o3 := if o2.DialTimeout = 0 then { o2 with DialTimeout := 5 * nsSecond } else o2
  let o4 := if o3.ReadTimeout = -1 then { o3 with ReadTimeout := 0 }
            else if o3.ReadTimeout = 0 then { o3 with ReadTimeout := 3 * nsSecond } else o3
  let o5 := if o4.WriteTimeout = -1 then { o4 with WriteTimeout := 0 }
            else if o4.WriteTimeout = 0 then { o4 with WriteTimeout := o4.ReadTimeout } else o4
  let o6 := if o5.PoolTimeout = 0 then { o5 with PoolTimeout := o5.ReadTimeout + nsSecond } else o5
  let o7 := if o6.IdleTimeout = 0 then { o6 with IdleTimeout := 5 * 60 * nsSecond } else o6
  let o8 := if o7.IdleCheckFrequency = 0 then { o7 with IdleCheckFrequency := 60 * nsSecond } else o7
  o8

/-- One `ThriftConn` (connection.go).  `closeErr` is the environment's
choice of what `socket.Close()` would return for this connection. -/
structure ConnData where
  endpoint : String
  closed : Bool
  usedTime : Int
  createTime : Int
  pooled : Bool
  closeErr : Option Err
  deriving DecidableEq, Repr

/-- `(*ThriftConn).Close`: idempotent; first call marks closed and returns
the socket close result. -/
def connClose (c : ConnData) : Option Err × ConnData :=
  if c.closed then (none, c)
  else (c.closeErr, { c with closed := true })

/-- Outcome of one `NewThriftConn` dial attempt, chosen by the
environment: success carries the wall-clock time (`UpdateUsedTime` at
creation) and the connection's future socket-close result. -/
inductive DialOutcome where
  | ok (now : Int) (closeErr : Option Err)
  | fail (e : Err)
  deriving DecidableEq, Repr

/-- Go `uint32(n)` for an `int` n. -/
def u32 (n : Int) : Nat := (n % 4294967296).toNat

/-- State of a `ThriftConnPool` plus environment instrumentation. -/
structure PState where
  opt : Options
  dialErrorsNum : Nat
  lastDialError : Option Err
  queueLen : Nat
  conns : List Nat
  idleConns : List Nat
  poolSize : Int
  idleConnsLen : Int
  statsHits : Nat
  statsMisses : Nat
  statsTimeouts : Nat
  statsStaleConns : Nat
  closedFlag : Bool
  heap : Nat → ConnData
  nextId : Nat
  pendingIdleDials : Nat
  tryDialActive : Nat
  checkedOut : List Nat
  leaked : Nat
  panicked : Bool

/-- Capacity of the admission channel `make(chan struct{}, opt.PoolSize)`. -/
def chanCap (s : PState) : Nat := s.opt.PoolSize.toNat

/-- `checkMinIdleConns` (pool.go:237-246): speculative reservation; the
spawned `go addIdleConn()` becomes a pending task. -/
def checkMinIdleConns (s : PState) : PState :=
  if s.opt.MinIdleConns = 0 then s
  else if s.poolSize < s.opt.PoolSize ∧ s.idleConnsLen < s.opt.MinIdleConns then
    { s with poolSize := s.poolSize + 1,
             idleConnsLen := s.idleConnsLen + 1,
             pendingIdleDials := s.pendingIdleDials + 1 }
  else s

/-- Write a connection into the heap. -/
def heapSet (h : Nat → ConnData) (i : Nat) (c : ConnData) : Nat → ConnData :=
  fun j => if j = i then c else h j

/-- `newConn` (pool.go:204-223).  Returns the Go pair (conn, err) plus the
updated state.  A dial failure whose increment makes the counter reach
`uint32(opt.PoolSize)` starts one `tryDial` recovery task. -/
def newConnF (s : PState) (outcome : DialOutcome) (pooled : Bool) :
    (Option ConnData × Option Err) × PState :=
  if s.closedFlag then ((none, some Err.errClosed), s)
  else if u32 s.opt.PoolSize ≤ s.dialErrorsNum then
    ((none, s.lastDialError), s)
  else
    match outcome with
    | DialOutcome.fail e =>
      let n := (s.dialErrorsNum + 1) % 4294967296
      ((none, some e),
       { s with lastDialError := some e,
                dialErrorsNum := n,
                tryDialActive := if n = u32 s.opt.PoolSize then s.tryDialActive + 1
                                 else s.tryDialActive })
    | DialOutcome.ok now cerr =>
      ((some { endpoint := s.opt.Addr, closed := false, usedTime := now,
               createTime := now, pooled := pooled, closeErr := cerr }, none), s)

/-- `NewConn` (pool.go:302-319): register the dialed connection; a pooled
request above capacity is downgraded to an overflow (`pooled = false`)
connection.  The branch where Go would handle a nil connection with a nil
error (circuit breaker open with no cached error) dereferences or
publishes a nil pointer; it is marked `panicked` and proven unreachable
for well-formed options. -/
def NewConnF (s : PState) (outcome : DialOutcome) (pooled : Bool) :
    (Option Nat × Option Err) × PState :=
  match newConnF s outcome pooled with
  | ((_, some e), s1) => ((none, some e), s1)
  | ((some cd, none), s1) =>
    let id := s1.nextId
    ((some id, none),
     { s1 with conns := s1.conns ++ [id],
               heap := heapSet s1.heap id
                 { cd with pooled := pooled && decide (s1.poolSize < s1.opt.PoolSize) },
               poolSize := if pooled = true ∧ s1.poolSize < s1.opt.PoolSize
                           then s1.poolSize + 1 else s1.poolSize,
               nextId := id + 1 })
  | ((none, none), s1) => ((none, none), { s1 with panicked := true })

/-- Completion of one pending `go addIdleConn()` goroutine
(pool.go:225-235).  On dial failure the function just returns: the
reservation made by `checkMinIdleConns` is NOT rolled back (ghost counter
`leaked` records this). -/
def addIdleDone (s : PState) (outcome : DialOutcome) : PState :=
  match newConnF { s with pendingIdleDials := s.pendingIdleDials - 1 } outcome true with
  | ((_, some _), s1) => { s1 with leaked := s1.leaked + 1 }
  | ((some cd, none), s1) =>
    { s1 with conns := s1.conns ++ [s1.nextId],
              idleConns := s1.idleConns ++ [s1.nextId],
              heap := heapSet s1.heap s1.nextId cd,
              nextId := s1.nextId + 1 }
  | ((none, none), s1) => { s1 with panicked := true }

/-- `popIdle` (pool.go:248-259): take the most recently returned idle
connection (tail of the slice). -/
def popIdle (s : PState) : Option Nat × PState :=
  match s.idleConns.getLast? with
  | none => (none, s)
  | some cn =>
    (some cn,
     checkMinIdleConns
       { s with idleConns := s.idleConns.dropLast,
                idleConnsLen := s.idleConnsLen - 1 })

/-- `isStaleConn` (pool.go:261-272). -/
def isStaleConn (opt : Options) (c : ConnData) (now : Int) : Bool :=
  if opt.IdleTimeout = 0 then false
  else if 0 < opt.IdleTimeout ∧ opt.IdleTimeout ≤ now - c.usedTime then true
  else false

/-- `reapStaleConn` (pool.go:69-83): inspect the head (least recently
used) of the idle list. -/
def reapStaleConnF (now : Int) (s : PState) : Option Nat × PState :=
  match s.idleConns with
  | [] => (none, s)
  | cn :: rest =>
    if isStaleConn s.opt (s.heap cn) now then
      (some cn, { s with idleConns := rest, idleConnsLen := s.idleConnsLen - 1 })
    else (none, s)

/-- `removeConn` (pool.go:274-287): drop the first matching entry from
`conns`; for a pooled connection also give back its pool-size slot and
re-check the idle floor. -/
def removeConnF (s : PState) (cn : Nat) : PState :=
  if cn ∈ s.conns then
    let s1 := { s with conns := s.conns.erase cn }
    if (s.heap cn).pooled then
      checkMinIdleConns { s1 with poolSize := s1.poolSize - 1 }
    else s1
  else s

/-- Mark connection `cn` closed in the heap (`cn.Close()`), returning the
error Go would observe. -/
def closeConnHeap (s : PState) (cn : Nat) : Option Err × PState :=
  let r := connClose (s.heap cn)
  (r.1, { s with heap := heapSet s.heap cn r.2 })

/-- `Remove` (pool.go:289-293): `removeConn`, `freeTurn`, `cn.Close()`.
Also returns the caller's checked-out ghost token. -/
def RemoveF (s : PState) (cn : Nat) : PState :=
  let s1 := removeConnF s cn
  let s2 := { s1 with queueLen := s1.queueLen - 1,
                      checkedOut := s1.checkedOut.erase cn }
  (closeConnHeap s2 cn).2

/-- `CloseConn` (pool.go:296-299): `removeConn` then `cn.Close()` (no gate
slot involved). -/
def CloseConnF (s : PState) (cn : Nat) : PState :=
  (closeConnHeap (removeConnF s cn) cn).2

/-- `Put` (pool.go:362-374).  Note: no closed-pool check. -/
def PutF (now : Int) (s : PState) (cn : Nat) : PState :=
  if (s.heap cn).pooled then
    let s1 := { s with heap := heapSet s.heap cn { s.heap cn with usedTime := now } }
    { s1 with idleConns := s1.idleConns ++ [cn],
              idleConnsLen := s1.idleConnsLen + 1,
              queueLen := s1.queueLen - 1,
              checkedOut := s1.checkedOut.erase cn }
  else RemoveF s cn

@[simp] theorem checkMinIdleConns_idleConns (s : PState) :
    (checkMinIdleConns s).idleConns = s.idleConns := by
  unfold checkMinIdleConns; split <;> [rfl; split <;> rfl]

@[simp] theorem checkMinIdleConns_conns (s : PState) :
    (checkMinIdleConns s).conns = s.conns := by
  unfold checkMinIdleConns; split <;> [rfl; split <;> rfl]

@[simp] theorem checkMinIdleConns_heap (s : PState) :
    (checkMinIdleConns s).heap = s.heap := by
  unfold checkMinIdleConns; split <;> [rfl; split <;> rfl]

@[simp] theorem checkMinIdleConns_opt (s : PState) :
    (checkMinIdleConns s).opt = s.opt := by
  unfold checkMinIdleConns; split <;> [rfl; split <;> rfl]

@[simp] theorem checkMinIdleConns_checkedOut (s : PState) :
    (checkMinIdleConns s).checkedOut = s.checkedOut := by
  unfold checkMinIdleConns; split <;> [rfl; split <;> rfl]

@[simp] theorem checkMinIdleConns_queueLen (s : PState) :
    (checkMinIdleConns s).queueLen = s.queueLen := by
  unfold checkMinIdleConns; split <;> [rfl; split <;> rfl]

@[simp] theorem checkMinIdleConns_nextId (s : PState) :
    (checkMinIdleConns s).nextId = s.nextId := by
  unfold checkMinIdleConns; split <;> [rfl; split <;> rfl]

@[simp] theorem checkMinIdleConns_closedFlag (s : PState) :
    (checkMinIdleConns s).closedFlag = s.closedFlag := by
  unfold checkMinIdleConns; split <;> [rfl; split <;> rfl]

@[simp] theorem checkMinIdleConns_dialErrorsNum (s : PState) :
    (checkMinIdleConns s).dialErrorsNum = s.dialErrorsNum := by
  unfold checkMinIdleConns; split <;> [rfl; split <;> rfl]

@[simp] theorem checkMinIdleConns_lastDialError (s : PState) :
    (checkMinIdleConns s).lastDialError = s.lastDialError := by
  unfold checkMinIdleConns; split <;> [rfl; split <;> rfl]

@[simp] theorem checkMinIdleConns_tryDialActive (s : PState) :
    (checkMinIdleConns s).tryDialActive = s.tryDialActive := by
  unfold checkMinIdleConns; split <;> [rfl; split <;> rfl]

@[simp] theorem checkMinIdleConns_leaked (s : PState) :
    (checkMinIdleConns s).leaked = s.leaked := by
  unfold checkMinIdleConns; split <;> [rfl; split <;> rfl]

@[simp] theorem checkMinIdleConns_panicked (s : PState) :
    (checkMinIdleConns s).panicked = s.panicked := by
  unfold checkMinIdleConns; split <;> [rfl; split <;> rfl]

@[simp] theorem removeConnF_idleConns (s : PState) (cn : Nat) :
    (removeConnF s cn).idleConns = s.idleConns := by
  unfold removeConnF; split <;> [split <;> simp; rfl]

@[simp] theorem closeConnHeap_idleConns (s : PState) (cn : Nat) :
    ((closeConnHeap s cn).2).idleConns = s.idleConns := rfl

@[simp] theorem CloseConnF_idleConns (s : PState) (cn : Nat) :
    (CloseConnF s cn).idleConns = s.idleConns := by
  unfold CloseConnF; simp

theorem popIdle_idleConns_of_getLast (s : PState) (cn : Nat)
    (h : s.idleConns.getLast? = some cn) :
    ((popIdle s).2).idleConns = s.idleConns.dropLast := by
  unfold popIdle; rw [h]; simp

theorem getLast?_ne_nil {l : List Nat} {a : Nat} (h : l.getLast? = some a) :
    l ≠ [] := by
  intro hnil; subst hnil; simp at h

/-- The idle-scan loop inside `Get` (pool.go:332-348), structurally
recursive on a fuel argument: pop the tail of the idle list; a stale
connection is closed, dropped from `conns`, and the loop continues; a
fresh one is a cache hit.  Each iteration shortens `idleConns` by one, so
fuel `s.idleConns.length` (see `getLoop`) always suffices and the
fuel-exhausted branch is never taken. -/
def getLoopAux (now : Int) : Nat → PState → Option Nat × PState
  | 0, s => (none, s)
  | fuel + 1, s =>
    match s.idleConns.getLast? with
    | none => (none, s)
    | some cn =>
      if isStaleConn ((popIdle s).2).opt (((popIdle s).2).heap cn) now then
        getLoopAux now fuel (CloseConnF (popIdle s).2 cn)
      else
        (some cn, { (popIdle s).2 with statsHits := ((popIdle s).2).statsHits + 1 })

def getLoop (now : Int) (s : PState) : Option Nat × PState :=
  getLoopAux now s.idleConns.length s

/-- `Get` (pool.go:322-359) after a successful `waitTurn` (the admission
precondition lives in the step relation).  The `(nil, nil)` result from
`NewConn` is the unreachable nil-connection case. -/
def GetF (now : Int) (outcome : DialOutcome) (s : PState) :
    (Option Nat × Option Err) × PState :=
  if s.closedFlag then ((none, some Err.errClosed), s)
  else
    let s0 := { s with queueLen := s.queueLen + 1 }
    match getLoop now s0 with
    | (some cn, s1) =>
      ((some cn, none), { s1 with checkedOut := s1.checkedOut ++ [cn] })
    | (none, s1) =>
      let s2 := { s1 with statsMisses := s1.statsMisses + 1 }
      match NewConnF s2 outcome true with
      | ((some cn, none), s3) =>
        ((some cn, none), { s3 with checkedOut := s3.checkedOut ++ [cn] })
      | ((_, some e), s3) => ((none, some e), { s3 with queueLen := s3.queueLen - 1 })
      | ((none, none), s3) => ((none, none), s3)

/-- `Get` when `waitTurn` times out (pool.go:131-152). -/
def getTimeoutF (s : PState) : PState :=
  { s with statsTimeouts := s.statsTimeouts + 1 }

/-- One iteration of the loop in `ReapStaleConns` (pool.go:85-108): the
transient `getTurn`/`freeTurn` pair nets to zero; a reaped connection is
removed, closed, and counted. -/
def reapIterF (now : Int) (s : PState) : Option Nat × PState :=
  match reapStaleConnF now s with
  | (none, s1) => (none, s1)
  | (some cn, s1) =>
    (some cn,
     { (closeConnHeap (removeConnF s1 cn) cn).2 with
         statsStaleConns := ((closeConnHeap (removeConnF s1 cn) cn).2).statsStaleConns + 1 })

/-- The close loop of `Close` (pool.go:399-403) with its `firstErr`
accumulator. -/
def closeAll (l : List Nat) (h : Nat → ConnData) (firstErr : Option Err) :
    Option Err × (Nat → ConnData) :=
  match l with
  | [] => (firstErr, h)
  | cn :: rest =>
    let r := connClose (h cn)
    let firstErr1 := match r.1, firstErr with
      | some e, none => some e
      | _, _ => firstErr
    closeAll rest (heapSet h cn r.2) firstErr1

/-- `Close` (pool.go:392-411). -/
def CloseF (s : PState) : Option Err × PState :=
  if s.closedFlag then (some Err.errClosed, s)
  else
    let s0 := { s with closedFlag := true }
    let r := closeAll s0.conns s0.heap none
    (r.1,
     { s0 with heap := r.2, conns := [], poolSize := 0,
               idleConns := [], idleConnsLen := 0 })

/-- Snapshot returned by `Stats` (pool.go:171-182); counts are `uint32`. -/
structure GoStats where
  Hits : Nat
  Misses : Nat
  Timeouts : Nat
  TotalConns : Nat
  IdleConns : Nat
  StaleConns : Nat
  deriving DecidableEq, Repr

/-- `Stats` (pool.go:171-182): `TotalConns = uint32(len(conns))`,
`IdleConns = uint32(idleConnsLen)`. -/
def StatsF (s : PState) : GoStats :=
  { Hits := s.statsHits % 4294967296,
    Misses := s.statsMisses % 4294967296,
    Timeouts := s.statsTimeouts % 4294967296,
    TotalConns := s.conns.length % 4294967296,
    IdleConns := u32 s.idleConnsLen,
    StaleConns := s.statsStaleConns % 4294967296 }

/-- `IdleLen` (pool.go:385-390). -/
def IdleLenF (s : PState) : Int := s.idleConnsLen

/-- `Len` (pool.go:377-382). -/
def LenF (s : PState) : Nat := s.conns.length

/-- A `tryDial` iteration that fails (pool.go:191-196): record the error,
sleep, loop (task stays active). -/
def tryDialFailF (s : PState) (e : Err) : PState :=
  { s with lastDialError := some e }

/-- A `tryDial` iteration that succeeds (pool.go:198-200): reset the
consecutive-failure counter, discard the probe connection, exit. -/
def tryDialOkF (s : PState) : PState :=
  { s with dialErrorsNum := 0, tryDialActive := s.tryDialActive - 1 }

/-- `tryDial` observing the closed flag (pool.go:187-189): exit without
resetting anything. -/
def tryDialExitF (s : PState) : PState :=
  { s with tryDialActive := s.tryDialActive - 1 }

/-- `NewThriftConnPool` (pool.go:46-63).  `make(chan struct{}, n)` panics
for negative n. -/
def newThriftConnPool (opt : Options) : PState :=
  let base : PState :=
    { opt := opt, dialErrorsNum := 0, lastDialError := none, queueLen := 0,
      conns := [], idleConns := [], poolSize := 0, idleConnsLen := 0,
      statsHits := 0, statsMisses := 0, statsTimeouts := 0, statsStaleConns := 0,
      closedFlag := false,
      heap := fun _ => { endpoint := "", closed := true, usedTime := 0,
                         createTime := 0, pooled := false, closeErr := none },
      nextId := 0, pendingIdleDials := 0, tryDialActive := 0, checkedOut := [],
      leaked := 0, panicked := decide (opt.PoolSize < 0) }
  checkMinIdleConns^[opt.MinIdleConns.toNat] base

/-- Configurations whose `PoolSize` is representable in the `uint32` used
by the circuit breaker (and non-negative, so pool construction does not
panic). -/
def goodOpt (opt : Options) : Prop :=
  0 ≤ opt.PoolSize ∧ opt.PoolSize < 4294967296

instance (opt : Options) : Decidable (goodOpt opt) := by
  unfold goodOpt; infer_instance

/-- One interleaved transition of the pool system.  `allowClose = false`
restricts to the operation set of the reachability claims that exclude
`Close`.  Caller obligations (`Put`/`Remove` only on a connection checked
out by a prior `Get`) are the ghost `checkedOut` preconditions. -/
inductive StepP (allowClose : Bool) : PState → PState → Prop where
  | getTimeout (s : PState) :
      s.closedFlag = false → chanCap s ≤ s.queueLen →
      StepP allowClose s (getTimeoutF s)
  | getOk (s : PState) (now : Int) (outcome : DialOutcome) :
      s.closedFlag = false → s.queueLen < chanCap s →
      StepP allowClose s (GetF now outcome s).2
  | put (s : PState) (cn : Nat) (now : Int) :
      cn ∈ s.checkedOut →
      StepP allowClose s (PutF now s cn)
  | removeStep (s : PState) (cn : Nat) :
      cn ∈ s.checkedOut →
      StepP allowClose s (RemoveF s cn)
  | reapIter (s : PState) (now : Int) :
      s.queueLen < chanCap s →
      StepP allowClose s (reapIterF now s).2
  | idleDialDone (s : PState) (outcome : DialOutcome) :
      0 < s.pendingIdleDials →
      StepP allowClose s (addIdleDone s outcome)
  | tryDialFail (s : PState) (e : Err) :
      0 < s.tryDialActive → s.closedFlag = false →
      StepP allowClose s (tryDialFailF s e)
  | tryDialOk (s : PState) :
      0 < s.tryDialActive → s.closedFlag = false →
      StepP allowClose s (tryDialOkF s)
  | tryDialExit (s : PState) :
      0 < s.tryDialActive → s.closedFlag = true →
      StepP allowClose s (tryDialExitF s)
  | closeStep (s : PState) :
      allowClose = true →
      StepP allowClose s (CloseF s).2

/-- Reachability from the freshly constructed pool (or any state). -/
def Reach (allowClose : Bool) : PState → PState → Prop :=
  Relation.ReflTransGen (StepP allowClose)

/-! ## Helper lemmas -/

theorem heapSet_same (h : Nat → ConnData) (i : Nat) (c : ConnData) :
    heapSet h i c i = c := by simp [heapSet]

theorem heapSet_other (h : Nat → ConnData) (i : Nat) (c : ConnData) (j : Nat)
    (hne : j ≠ i) : heapSet h i c j = h j := by simp [heapSet, hne]

theorem connClose_pooled (c : ConnData) : ((connClose c).2).pooled = c.pooled := by
  unfold connClose; split <;> rfl

theorem connClose_closed (c : ConnData) : ((connClose c).2).closed = true := by
  unfold connClose; split
  · next hc => exact hc
  · rfl

/-- Number of pooled connections currently tracked in `conns`. -/
def countPooled (s : PState) : Nat :=
  s.conns.countP (fun cn => (s.heap cn).pooled)

theorem countPooled_eq_of (s t : PState) (hc : t.conns = s.conns)
    (hh : ∀ x ∈ s.conns, (t.heap x).pooled = (s.heap x).pooled) :
    countPooled t = countPooled s := by
  unfold countPooled
  rw [hc]
  exact List.countP_congr fun x hx => by rw [hh x hx]

theorem length_le_countP {l m : List Nat} {p : Nat → Bool} (hn : l.Nodup)
    (hsub : ∀ x ∈ l, x ∈ m ∧ p x = true) : l.length ≤ m.countP p := by
  have h1 : l ⊆ m.filter p := fun x hx =>
    List.mem_filter.mpr ⟨(hsub x hx).1, (hsub x hx).2⟩
  have h2 := List.Subperm.length_le (List.subperm_of_subset hn h1)
  simpa [List.countP_eq_length_filter] using h2

theorem countP_erase_of_mem {l : List Nat} {a : Nat} (p : Nat → Bool) (h : a ∈ l) :
    l.countP p = (l.erase a).countP p + (if p a then 1 else 0) := by
  have hp := (List.perm_cons_erase h).countP_eq p
  rw [hp, List.countP_cons]

theorem getLast_not_mem_dropLast {l : List Nat} {a : Nat} (hnd : l.Nodup)
    (h : l.getLast? = some a) : a ∉ l.dropLast := by
  have hne : l ≠ [] := getLast?_ne_nil h
  have heq : l.dropLast ++ [l.getLast hne] = l := List.dropLast_append_getLast hne
  have ha : a = l.getLast hne := by
    have := List.getLast?_eq_getLast l hne
    rw [this] at h
    exact (Option.some_inj.mp h).symm
  subst ha
  rw [← heq] at hnd
  rcases List.nodup_append.mp hnd with ⟨-, -, hdisj⟩
  intro hmem
  exact hdisj hmem (List.mem_singleton_self _)

theorem getLast?_mem_of_eq {l : List Nat} {a : Nat} (h : l.getLast? = some a) :
    a ∈ l := by
  have hne : l ≠ [] := getLast?_ne_nil h
  have := List.getLast?_eq_getLast l hne
  rw [this] at h
  rw [← Option.some_inj.mp h]
  exact List.getLast_mem hne

theorem u32_lt (n : Int) : u32 n < 4294967296 := by
  unfold u32
  have h1 : n % 4294967296 < 4294967296 := Int.emod_lt_of_pos n (by norm_num)
  omega

theorem u32_eq_toNat {n : Int} (h0 : 0 ≤ n) (h1 : n < 4294967296) :
    u32 n = n.toNat := by
  unfold u32
  rw [Int.emod_eq_of_lt h0 h1]

/-! ## The inductive invariant -/

/-- Inductive invariant of the pool system (for the operation set without
`Close`).  The first two numeric fields say that `idleConnsLen` counts
actual idle connections plus outstanding speculative reservations
(pending dials and reservations leaked by failed dials), and that
`poolSize` counts pooled tracked connections plus the same reservations. -/
structure Inv (opt : Options) (s : PState) : Prop where
  hOpt : s.opt = opt
  hClosed : s.closedFlag = false
  hPanic : s.panicked = false
  hIdleLen : s.idleConnsLen =
    ((s.idleConns.length + s.pendingIdleDials + s.leaked : Nat) : Int)
  hPool : s.poolSize =
    ((countPooled s + s.pendingIdleDials + s.leaked : Nat) : Int)
  hCap : s.poolSize ≤ s.opt.PoolSize
  hConnsND : s.conns.Nodup
  hIdleND : s.idleConns.Nodup
  hCOND : s.checkedOut.Nodup
  hIdleSub : ∀ cn ∈ s.idleConns, cn ∈ s.conns ∧ (s.heap cn).pooled = true
  hCO : ∀ cn ∈ s.checkedOut, cn ∈ s.conns ∧ cn ∉ s.idleConns
  hFresh : ∀ cn ∈ s.conns, cn < s.nextId
  hQueue : s.checkedOut.length ≤ s.queueLen
  hDialErr : s.dialErrorsNum ≠ 0 → s.lastDialError ≠ none
  hPend : 0 < s.pendingIdleDials → 0 < s.opt.PoolSize
  hCB1 : s.dialErrorsNum ≤ u32 s.opt.PoolSize
  hCB2 : s.tryDialActive =
    if s.dialErrorsNum = u32 s.opt.PoolSize ∧ 0 < u32 s.opt.PoolSize then 1 else 0

theorem Inv.idle_le_pool {opt : Options} {s : PState} (h : Inv opt s) :
    s.idleConnsLen ≤ s.poolSize := by
  rw [h.hIdleLen, h.hPool]
  have hle : s.idleConns.length ≤ countPooled s :=
    length_le_countP h.hIdleND h.hIdleSub
  have : s.idleConns.length + s.pendingIdleDials + s.leaked ≤
      countPooled s + s.pendingIdleDials + s.leaked := by omega
  exact_mod_cast this

theorem inv_checkMinIdle {opt : Options} {s : PState} (h : Inv opt s) :
    Inv opt (checkMinIdleConns s) := by
  unfold checkMinIdleConns
  split
  · exact h
  · split
    · next hgrd =>
      obtain ⟨hlt, -⟩ := hgrd
      have hps0 : 0 ≤ s.poolSize := by
        rw [h.hPool]; exact Int.ofNat_nonneg _
      refine ⟨h.hOpt, h.hClosed, h.hPanic, ?_, ?_, ?_, h.hConnsND, h.hIdleND,
        h.hCOND, h.hIdleSub, h.hCO, h.hFresh, h.hQueue, h.hDialErr, ?_,
        h.hCB1, h.hCB2⟩
      · show s.idleConnsLen + 1 =
          ((s.idleConns.length + (s.pendingIdleDials + 1) + s.leaked : Nat) : Int)
        have := h.hIdleLen; push_cast at this ⊢; omega
      · show s.poolSize + 1 =
          ((countPooled s + (s.pendingIdleDials + 1) + s.leaked : Nat) : Int)
        have := h.hPool; push_cast at this ⊢; omega
      · show s.poolSize + 1 ≤ s.opt.PoolSize
        omega
      · show 0 < s.pendingIdleDials + 1 → 0 < s.opt.PoolSize
        intro _; omega
    · exact h

theorem inv_popIdle {opt : Options} {s : PState} (h : Inv opt s) :
    Inv opt (popIdle s).2 := by
  unfold popIdle
  cases hl : s.idleConns.getLast? with
  | none => exact h
  | some cn =>
    have hne : s.idleConns ≠ [] := getLast?_ne_nil hl
    have hlen : 0 < s.idleConns.length := List.length_pos.mpr hne
    apply inv_checkMinIdle
    refine ⟨h.hOpt, h.hClosed, h.hPanic, ?_, ?_, h.hCap, h.hConnsND, ?_,
      h.hCOND, ?_, ?_, h.hFresh, h.hQueue, h.hDialErr, h.hPend, h.hCB1, h.hCB2⟩
    · show s.idleConnsLen - 1 =
        ((s.idleConns.dropLast.length + s.pendingIdleDials + s.leaked : Nat) : Int)
      have := h.hIdleLen
      rw [List.length_dropLast]
      omega
    · exact h.hPool
    · exact List.Nodup.sublist (List.dropLast_sublist _) h.hIdleND
    · intro x hx
      exact h.hIdleSub x (List.mem_of_mem_dropLast hx)
    · intro x hx
      obtain ⟨h1, h2⟩ := h.hCO x hx
      exact ⟨h1, fun hc => h2 (List.mem_of_mem_dropLast hc)⟩

theorem inv_closeConnHeap {opt : Options} {s : PState} (h : Inv opt s) (cn : Nat) :
    Inv opt (closeConnHeap s cn).2 := by
  have hpool : ∀ x, ((heapSet s.heap cn (connClose (s.heap cn)).2) x).pooled
      = (s.heap x).pooled := by
    intro x
    by_cases hx : x = cn
    · subst hx; rw [heapSet_same]; exact connClose_pooled _
    · rw [heapSet_other _ _ _ _ hx]
  have hcp : countPooled (closeConnHeap s cn).2 = countPooled s :=
    countPooled_eq_of s _ rfl (fun x _ => hpool x)
  refine ⟨h.hOpt, h.hClosed, h.hPanic, h.hIdleLen, ?_, h.hCap, h.hConnsND,
    h.hIdleND, h.hCOND, ?_, h.hCO, h.hFresh, h.hQueue, h.hDialErr, h.hPend,
    h.hCB1, h.hCB2⟩
  · rw [hcp]; exact h.hPool
  · intro x hx
    obtain ⟨h1, h2⟩ := h.hIdleSub x hx
    refine ⟨h1, ?_⟩
    show ((heapSet s.heap cn (connClose (s.heap cn)).2) x).pooled = true
    rw [hpool x]; exact h2

theorem inv_removeConn {opt : Options} {s : PState} (h : Inv opt s) {cn : Nat}
    (hni : cn ∉ s.idleConns) (hnco : cn ∉ s.checkedOut) :
    Inv opt (removeConnF s cn) := by
  unfold removeConnF
  split
  · next hmem =>
    have herase := countP_erase_of_mem (p := fun x => (s.heap x).pooled) hmem
    have hP := h.hPool
    unfold countPooled at hP
    split
    · next hpooled =>
      rw [if_pos hpooled] at herase
      apply inv_checkMinIdle
      refine ⟨h.hOpt, h.hClosed, h.hPanic, h.hIdleLen, ?_, ?_, ?_, h.hIdleND,
        h.hCOND, ?_, ?_, ?_, h.hQueue, h.hDialErr, h.hPend, h.hCB1, h.hCB2⟩
      · show s.poolSize - 1 =
          (((s.conns.erase cn).countP (fun x => (s.heap x).pooled)
            + s.pendingIdleDials + s.leaked : Nat) : Int)
        omega
      · show s.poolSize - 1 ≤ s.opt.PoolSize
        have := h.hCap; omega
      · exact h.hConnsND.erase cn
      · intro x hx
        obtain ⟨h1, h2⟩ := h.hIdleSub x hx
        have hxne : x ≠ cn := fun he => hni (he ▸ hx)
        exact ⟨(h.hConnsND.mem_erase_iff).mpr ⟨hxne, h1⟩, h2⟩
      · intro x hx
        obtain ⟨h1, h2⟩ := h.hCO x hx
        have hxne : x ≠ cn := fun he => hnco (he ▸ hx)
        exact ⟨(h.hConnsND.mem_erase_iff).mpr ⟨hxne, h1⟩, h2⟩
      · intro x hx
        exact h.hFresh x (List.erase_subset _ _ hx)
    · next hpooled =>
      rw [if_neg hpooled] at herase
      refine ⟨h.hOpt, h.hClosed, h.hPanic, h.hIdleLen, ?_, h.hCap, ?_, h.hIdleND,
        h.hCOND, ?_, ?_, ?_, h.hQueue, h.hDialErr, h.hPend, h.hCB1, h.hCB2⟩
      · show s.poolSize =
          (((s.conns.erase cn).countP (fun x => (s.heap x).pooled)
            + s.pendingIdleDials + s.leaked : Nat) : Int)
        omega
      · exact h.hConnsND.erase cn
      · intro x hx
        obtain ⟨h1, h2⟩ := h.hIdleSub x hx
        have hxne : x ≠ cn := fun he => hni (he ▸ hx)
        exact ⟨(h.hConnsND.mem_erase_iff).mpr ⟨hxne, h1⟩, h2⟩
      · intro x hx
        obtain ⟨h1, h2⟩ := h.hCO x hx
        have hxne : x ≠ cn := fun he => hnco (he ▸ hx)
        exact ⟨(h.hConnsND.mem_erase_iff).mpr ⟨hxne, h1⟩, h2⟩
      · intro x hx
        exact h.hFresh x (List.erase_subset _ _ hx)
  · exact h

theorem inv_CloseConnF {opt : Options} {s : PState} (h : Inv opt s) {cn : Nat}
    (hni : cn ∉ s.idleConns) (hnco : cn ∉ s.checkedOut) :
    Inv opt (CloseConnF s cn) :=
  inv_closeConnHeap (inv_removeConn h hni hnco) cn

@[simp] theorem popIdle_checkedOut (s : PState) :
    ((popIdle s).2).checkedOut = s.checkedOut := by
  unfold popIdle
  cases s.idleConns.getLast? <;> simp

@[simp] theorem popIdle_queueLen (s : PState) :
    ((popIdle s).2).queueLen = s.queueLen := by
  unfold popIdle
  cases s.idleConns.getLast? <;> simp

@[simp] theorem popIdle_conns (s : PState) :
    ((popIdle s).2).conns = s.conns := by
  unfold popIdle
  cases s.idleConns.getLast? <;> simp

@[simp] theorem popIdle_heap (s : PState) :
    ((popIdle s).2).heap = s.heap := by
  unfold popIdle
  cases s.idleConns.getLast? <;> simp

@[simp] theorem popIdle_closedFlag (s : PState) :
    ((popIdle s).2).closedFlag = s.closedFlag := by
  unfold popIdle
  cases s.idleConns.getLast? <;> simp

@[simp] theorem popIdle_opt (s : PState) :
    ((popIdle s).2).opt = s.opt := by
  unfold popIdle
  cases s.idleConns.getLast? <;> simp

@[simp] theorem removeConnF_checkedOut (s : PState) (cn : Nat) :
    (removeConnF s cn).checkedOut = s.checkedOut := by
  unfold removeConnF; split <;> [split <;> simp; rfl]

@[simp] theorem removeConnF_queueLen (s : PState) (cn : Nat) :
    (removeConnF s cn).queueLen = s.queueLen := by
  unfold removeConnF; split <;> [split <;> simp; rfl]

@[simp] theorem removeConnF_closedFlag (s : PState) (cn : Nat) :
    (removeConnF s cn).closedFlag = s.closedFlag := by
  unfold removeConnF; split <;> [split <;> simp; rfl]

@[simp] theorem closeConnHeap_checkedOut (s : PState) (cn : Nat) :
    ((closeConnHeap s cn).2).checkedOut = s.checkedOut := rfl

@[simp] theorem closeConnHeap_queueLen (s : PState) (cn : Nat) :
    ((closeConnHeap s cn).2).queueLen = s.queueLen := rfl

@[simp] theorem closeConnHeap_closedFlag (s : PState) (cn : Nat) :
    ((closeConnHeap s cn).2).closedFlag = s.closedFlag := rfl

@[simp] theorem closeConnHeap_conns (s : PState) (cn : Nat) :
    ((closeConnHeap s cn).2).conns = s.conns := rfl

@[simp] theorem CloseConnF_checkedOut (s : PState) (cn : Nat) :
    (CloseConnF s cn).checkedOut = s.checkedOut := by
  unfold CloseConnF; simp

@[simp] theorem CloseConnF_queueLen (s : PState) (cn : Nat) :
    (CloseConnF s cn).queueLen = s.queueLen := by
  unfold CloseConnF; simp

@[simp] theorem CloseConnF_closedFlag (s : PState) (cn : Nat) :
    (CloseConnF s cn).closedFlag = s.closedFlag := by
  unfold CloseConnF; simp

/-- Transporting the invariant across pure statistics updates. -/
theorem inv_stats {opt : Options} {t : PState} (h : Inv opt t) (a b c d : Nat) :
    Inv opt { t with statsHits := a, statsMisses := b,
                     statsTimeouts := c, statsStaleConns := d } :=
  ⟨h.hOpt, h.hClosed, h.hPanic, h.hIdleLen, h.hPool, h.hCap, h.hConnsND,
   h.hIdleND, h.hCOND, h.hIdleSub, h.hCO, h.hFresh, h.hQueue, h.hDialErr,
   h.hPend, h.hCB1, h.hCB2⟩

theorem getLoopAux_none (now : Int) (fuel : Nat) {s : PState}
    (hl : s.idleConns.getLast? = none) :
    getLoopAux now (fuel + 1) s = (none, s) := by
  unfold getLoopAux
  rw [hl]

theorem getLoopAux_stale (now : Int) (fuel : Nat) {s : PState} {cn : Nat}
    (hl : s.idleConns.getLast? = some cn)
    (hst : isStaleConn ((popIdle s).2).opt (((popIdle s).2).heap cn) now = true) :
    getLoopAux now (fuel + 1) s = getLoopAux now fuel (CloseConnF (popIdle s).2 cn) := by
  conv_lhs => rw [getLoopAux]
  rw [hl]
  dsimp only
  rw [if_pos hst]

theorem getLoopAux_fresh (now : Int) (fuel : Nat) {s : PState} {cn : Nat}
    (hl : s.idleConns.getLast? = some cn)
    (hst : isStaleConn ((popIdle s).2).opt (((popIdle s).2).heap cn) now = false) :
    getLoopAux now (fuel + 1) s =
      (some cn, { (popIdle s).2 with statsHits := ((popIdle s).2).statsHits + 1 }) := by
  conv_lhs => rw [getLoopAux]
  rw [hl]
  dsimp only
  rw [if_neg (by rw [hst]; exact Bool.false_ne_true)]

theorem getLoop_none (now : Int) {s : PState}
    (hl : s.idleConns.getLast? = none) : getLoop now s = (none, s) := by
  have hnil : s.idleConns = [] := List.getLast?_eq_none_iff.mp hl
  unfold getLoop
  rw [hnil]
  rfl

theorem getLoop_fuel (_now : Int) {s : PState} {cn : Nat}
    (hl : s.idleConns.getLast? = some cn) :
    ∃ m, s.idleConns.length = m + 1
      ∧ (CloseConnF (popIdle s).2 cn).idleConns.length = m := by
  have hne : s.idleConns ≠ [] := getLast?_ne_nil hl
  have hpos : 0 < s.idleConns.length := List.length_pos.mpr hne
  refine ⟨s.idleConns.length - 1, by omega, ?_⟩
  rw [CloseConnF_idleConns, popIdle_idleConns_of_getLast s cn hl,
    List.length_dropLast]

theorem getLoop_some_stale (now : Int) {s : PState} {cn : Nat}
    (hl : s.idleConns.getLast? = some cn)
    (hst : isStaleConn ((popIdle s).2).opt (((popIdle s).2).heap cn) now = true) :
    getLoop now s = getLoop now (CloseConnF (popIdle s).2 cn) := by
  obtain ⟨m, hm1, hm2⟩ := getLoop_fuel now hl
  unfold getLoop
  rw [hm1, hm2]
  exact getLoopAux_stale now m hl hst

theorem getLoop_some_fresh (now : Int) {s : PState} {cn : Nat}
    (hl : s.idleConns.getLast? = some cn)
    (hst : isStaleConn ((popIdle s).2).opt (((popIdle s).2).heap cn) now = false) :
    getLoop now s =
      (some cn, { (popIdle s).2 with statsHits := ((popIdle s).2).statsHits + 1 }) := by
  obtain ⟨m, hm1, -⟩ := getLoop_fuel now hl
  unfold getLoop
  rw [hm1]
  exact getLoopAux_fresh now m hl hst

theorem getLoopAux_spec {opt : Options} (now : Int) :
    ∀ (fuel : Nat) (s : PState), s.idleConns.length ≤ fuel → Inv opt s →
      Inv opt (getLoopAux now fuel s).2
      ∧ (getLoopAux now fuel s).2.checkedOut = s.checkedOut
      ∧ (getLoopAux now fuel s).2.queueLen = s.queueLen
      ∧ (∀ cn, (getLoopAux now fuel s).1 = some cn →
          cn ∈ (getLoopAux now fuel s).2.conns
          ∧ ((getLoopAux now fuel s).2.heap cn).pooled = true
          ∧ cn ∉ (getLoopAux now fuel s).2.idleConns ∧ cn ∉ s.checkedOut) := by
  intro fuel
  induction fuel with
  | zero =>
    intro s hle h
    exact ⟨h, rfl, rfl, fun cn hcn => by cases hcn⟩
  | succ fuel ih =>
    intro s hle h
    rcases hl : s.idleConns.getLast? with _ | cn
    · rw [getLoopAux_none now fuel hl]
      exact ⟨h, rfl, rfl, fun cn hcn => by cases hcn⟩
    · have hmem : cn ∈ s.idleConns := getLast?_mem_of_eq hl
      have hnco : cn ∉ s.checkedOut := fun hc => (h.hCO cn hc).2 hmem
      have hni : cn ∉ ((popIdle s).2).idleConns := by
        rw [popIdle_idleConns_of_getLast s cn hl]
        exact getLast_not_mem_dropLast h.hIdleND hl
      rcases hst : isStaleConn ((popIdle s).2).opt (((popIdle s).2).heap cn) now
        with _ | _
      case false =>
        rw [getLoopAux_fresh now fuel hl hst]
        refine ⟨inv_stats (inv_popIdle h) _ _ _ _, by simp, by simp, ?_⟩
        intro cn2 hcn2
        injection hcn2 with he
        subst he
        refine ⟨?_, ?_, ?_, hnco⟩
        · show cn ∈ ((popIdle s).2).conns
          rw [popIdle_conns]
          exact (h.hIdleSub cn hmem).1
        · show (((popIdle s).2).heap cn).pooled = true
          rw [popIdle_heap]
          exact (h.hIdleSub cn hmem).2
        · exact hni
      case true =>
        have hnco2 : cn ∉ ((popIdle s).2).checkedOut := by
          rw [popIdle_checkedOut]; exact hnco
        have hinv2 : Inv opt (CloseConnF (popIdle s).2 cn) :=
          inv_CloseConnF (inv_popIdle h) hni hnco2
        have hlen : (CloseConnF (popIdle s).2 cn).idleConns.length ≤ fuel := by
          obtain ⟨m, hm1, hm2⟩ := getLoop_fuel now hl
          omega
        obtain ⟨ih1, ih2, ih3, ih4⟩ := ih _ hlen hinv2
        rw [getLoopAux_stale now fuel hl hst]
        refine ⟨ih1, ?_, ?_, ?_⟩
        · rw [ih2]; simp
        · rw [ih3]; simp
        · intro cn2 hcn2
          obtain ⟨f1, f2, f3, f4⟩ := ih4 cn2 hcn2
          refine ⟨f1, f2, f3, ?_⟩
          simpa using f4

theorem getLoop_spec {opt : Options} (now : Int) (s : PState) (h : Inv opt s) :
    Inv opt (getLoop now s).2
    ∧ (getLoop now s).2.checkedOut = s.checkedOut
    ∧ (getLoop now s).2.queueLen = s.queueLen
    ∧ (∀ cn, (getLoop now s).1 = some cn →
        cn ∈ (getLoop now s).2.conns ∧ ((getLoop now s).2.heap cn).pooled = true
        ∧ cn ∉ (getLoop now s).2.idleConns ∧ cn ∉ s.checkedOut) :=
  getLoopAux_spec now s.idleConns.length s (le_refl _) h

/-! ## Shape lemmas for the dial path -/

theorem newConnF_closed {s : PState} (hcl : s.closedFlag = true)
    (o : DialOutcome) (p : Bool) :
    newConnF s o p = ((none, some Err.errClosed), s) := by
  unfold newConnF
  rw [if_pos hcl]

theorem newConnF_breaker {s : PState} (hcl : s.closedFlag = false)
    (hb : u32 s.opt.PoolSize ≤ s.dialErrorsNum) (o : DialOutcome) (p : Bool) :
    newConnF s o p = ((none, s.lastDialError), s) := by
  unfold newConnF
  rw [if_neg (by simp [hcl]), if_pos hb]

theorem newConnF_fail {s : PState} (hcl : s.closedFlag = false)
    (hb : ¬ u32 s.opt.PoolSize ≤ s.dialErrorsNum) (e : Err) (p : Bool) :
    newConnF s (DialOutcome.fail e) p =
      ((none, some e),
       { s with lastDialError := some e,
                dialErrorsNum := (s.dialErrorsNum + 1) % 4294967296,
                tryDialActive :=
                  if (s.dialErrorsNum + 1) % 4294967296 = u32 s.opt.PoolSize
                  then s.tryDialActive + 1 else s.tryDialActive }) := by
  unfold newConnF
  rw [if_neg (by simp [hcl]), if_neg hb]

theorem newConnF_ok {s : PState} (hcl : s.closedFlag = false)
    (hb : ¬ u32 s.opt.PoolSize ≤ s.dialErrorsNum) (now : Int) (cerr : Option Err)
    (p : Bool) :
    newConnF s (DialOutcome.ok now cerr) p =
      ((some { endpoint := s.opt.Addr, closed := false, usedTime := now,
               createTime := now, pooled := p, closeErr := cerr }, none), s) := by
  unfold newConnF
  rw [if_neg (by simp [hcl]), if_neg hb]

/-- The state after a foreground dial failure keeps the invariant. -/
theorem inv_failState {opt : Options} {s : PState} (h : Inv opt s)
    (hb : s.dialErrorsNum < u32 s.opt.PoolSize) (e : Err) :
    Inv opt { s with lastDialError := some e,
                     dialErrorsNum := (s.dialErrorsNum + 1) % 4294967296,
                     tryDialActive :=
                       if (s.dialErrorsNum + 1) % 4294967296 = u32 s.opt.PoolSize
                       then s.tryDialActive + 1 else s.tryDialActive } := by
  have hcap := u32_lt s.opt.PoolSize
  have hmod : (s.dialErrorsNum + 1) % 4294967296 = s.dialErrorsNum + 1 :=
    Nat.mod_eq_of_lt (by omega)
  have hact : s.tryDialActive = 0 := by
    rw [h.hCB2, if_neg]; rintro ⟨h1, -⟩; omega
  refine ⟨h.hOpt, h.hClosed, h.hPanic, h.hIdleLen, h.hPool, h.hCap, h.hConnsND,
    h.hIdleND, h.hCOND, h.hIdleSub, h.hCO, h.hFresh, h.hQueue, ?_, h.hPend, ?_, ?_⟩
  · intro _
    show (some e : Option Err) ≠ none
    simp
  · show (s.dialErrorsNum + 1) % 4294967296 ≤ u32 s.opt.PoolSize
    omega
  · show (if (s.dialErrorsNum + 1) % 4294967296 = u32 s.opt.PoolSize
          then s.tryDialActive + 1 else s.tryDialActive) =
      if (s.dialErrorsNum + 1) % 4294967296 = u32 s.opt.PoolSize
          ∧ 0 < u32 s.opt.PoolSize then 1 else 0
    rw [hmod]
    by_cases hc : s.dialErrorsNum + 1 = u32 s.opt.PoolSize
    · rw [if_pos hc, if_pos ⟨hc, by omega⟩, hact]
    · rw [if_neg hc, if_neg (by rintro ⟨h1, -⟩; exact hc h1), hact]

theorem countP_append_fresh (l : List Nat) (h : Nat → ConnData) (id : Nat)
    (cd : ConnData) (hf : ∀ x ∈ l, x ≠ id) :
    (l ++ [id]).countP (fun x => ((heapSet h id cd) x).pooled)
      = l.countP (fun x => (h x).pooled) + (if cd.pooled then 1 else 0) := by
  rw [List.countP_append]
  congr 1
  · exact List.countP_congr fun x hx => by
      rw [heapSet_other _ _ _ _ (hf x hx)]
  · simp [List.countP_cons, heapSet_same]

theorem inv_pushCheckedOut {opt : Options} {t : PState} {cn : Nat} (h : Inv opt t)
    (hc : cn ∈ t.conns) (hni : cn ∉ t.idleConns) (hnco : cn ∉ t.checkedOut)
    (hql : t.checkedOut.length + 1 ≤ t.queueLen) :
    Inv opt { t with checkedOut := t.checkedOut ++ [cn] } := by
  refine ⟨h.hOpt, h.hClosed, h.hPanic, h.hIdleLen, h.hPool, h.hCap, h.hConnsND,
    h.hIdleND, ?_, h.hIdleSub, ?_, h.hFresh, ?_, h.hDialErr, h.hPend, h.hCB1,
    h.hCB2⟩
  · show (t.checkedOut ++ [cn]).Nodup
    rw [List.nodup_append]
    refine ⟨h.hCOND, List.nodup_singleton _, ?_⟩
    intro a ha hb
    rw [List.mem_singleton] at hb
    subst hb
    exact hnco ha
  · intro x hx
    rw [List.mem_append] at hx
    cases hx with
    | inl hx => exact h.hCO x hx
    | inr hx =>
      rw [List.mem_singleton] at hx
      subst hx
      exact ⟨hc, hni⟩
  · show (t.checkedOut ++ [cn]).length ≤ t.queueLen
    rw [List.length_append]
    simpa using hql

theorem NewConnF_of_err {s : PState} {o : DialOutcome} {p : Bool}
    {cn : Option ConnData} {e : Err} {t : PState}
    (h : newConnF s o p = ((cn, some e), t)) :
    NewConnF s o p = ((none, some e), t) := by
  unfold NewConnF
  rw [h]
  cases cn <;> rfl

theorem NewConnF_of_ok {s : PState} {o : DialOutcome} {p : Bool}
    {cd : ConnData} {t : PState}
    (h : newConnF s o p = ((some cd, none), t)) :
    NewConnF s o p =
      ((some t.nextId, none),
       { t with conns := t.conns ++ [t.nextId],
                heap := heapSet t.heap t.nextId
                  { cd with pooled := p && decide (t.poolSize < t.opt.PoolSize) },
                poolSize := if p = true ∧ t.poolSize < t.opt.PoolSize
                            then t.poolSize + 1 else t.poolSize,
                nextId := t.nextId + 1 }) := by
  unfold NewConnF
  rw [h]

/-- Registering a freshly dialed connection (`NewConn` success path)
keeps the invariant. -/
theorem inv_NewConnF_okState {opt : Options} {t : PState} (h : Inv opt t)
    (cd : ConnData) (p : Bool) :
    Inv opt { t with conns := t.conns ++ [t.nextId],
                     heap := heapSet t.heap t.nextId
                       { cd with pooled := p && decide (t.poolSize < t.opt.PoolSize) },
                     poolSize := if p = true ∧ t.poolSize < t.opt.PoolSize
                                 then t.poolSize + 1 else t.poolSize,
                     nextId := t.nextId + 1 } := by
  have hfr : ∀ x ∈ t.conns, x ≠ t.nextId := fun x hx =>
    Nat.ne_of_lt (h.hFresh x hx)
  have hcnt := countP_append_fresh t.conns t.heap t.nextId
    { cd with pooled := p && decide (t.poolSize < t.opt.PoolSize) } hfr
  refine ⟨h.hOpt, h.hClosed, h.hPanic, h.hIdleLen, ?_, ?_, ?_, h.hIdleND, h.hCOND,
    ?_, ?_, ?_, h.hQueue, h.hDialErr, h.hPend, h.hCB1, h.hCB2⟩
  · show (if p = true ∧ t.poolSize < t.opt.PoolSize then t.poolSize + 1 else t.poolSize)
      = (((t.conns ++ [t.nextId]).countP
            (fun x => ((heapSet t.heap t.nextId
              { cd with pooled := p && decide (t.poolSize < t.opt.PoolSize) }) x).pooled)
          + t.pendingIdleDials + t.leaked : Nat) : Int)
    rw [hcnt]
    have hP := h.hPool
    unfold countPooled at hP
    by_cases hcond : p = true ∧ t.poolSize < t.opt.PoolSize
    · rw [if_pos hcond]
      have hbt : (p && decide (t.poolSize < t.opt.PoolSize)) = true := by
        rw [hcond.1]; simp [hcond.2]
      rw [hbt]
      simp only [if_true]
      push_cast at hP ⊢
      omega
    · rw [if_neg hcond]
      have hbf : (p && decide (t.poolSize < t.opt.PoolSize)) = false := by
        by_cases hl : t.poolSize < t.opt.PoolSize
        · have hp : p ≠ true := fun hp => hcond ⟨hp, hl⟩
          cases p
          · rfl
          · exact absurd rfl hp
        · simp [hl]
      rw [hbf]
      simp only [Bool.false_eq_true, if_false]
      push_cast at hP ⊢
      omega
  · show (if p = true ∧ t.poolSize < t.opt.PoolSize then t.poolSize + 1 else t.poolSize)
      ≤ t.opt.PoolSize
    split
    · next hcond => omega
    · exact h.hCap
  · show (t.conns ++ [t.nextId]).Nodup
    rw [List.nodup_append]
    refine ⟨h.hConnsND, List.nodup_singleton _, ?_⟩
    intro a ha hb
    rw [List.mem_singleton] at hb
    subst hb
    exact (hfr _ ha) rfl
  · intro x hx
    obtain ⟨h1, h2⟩ := h.hIdleSub x hx
    refine ⟨List.mem_append.mpr (Or.inl h1), ?_⟩
    show ((heapSet t.heap t.nextId _) x).pooled = true
    rw [heapSet_other _ _ _ _ (hfr x h1)]
    exact h2
  · intro x hx
    obtain ⟨h1, h2⟩ := h.hCO x hx
    exact ⟨List.mem_append.mpr (Or.inl h1), h2⟩
  · intro x hx
    rw [List.mem_append] at hx
    cases hx with
    | inl hx => exact Nat.lt_succ_of_lt (h.hFresh x hx)
    | inr hx =>
      rw [List.mem_singleton] at hx
      subst hx
      exact Nat.lt_succ_self _

theorem inv_dropTurn {opt : Options} {t : PState} (h : Inv opt t)
    (hql : t.checkedOut.length ≤ t.queueLen - 1) :
    Inv opt { t with queueLen := t.queueLen - 1 } :=
  ⟨h.hOpt, h.hClosed, h.hPanic, h.hIdleLen, h.hPool, h.hCap, h.hConnsND,
   h.hIdleND, h.hCOND, h.hIdleSub, h.hCO, h.hFresh, hql, h.hDialErr, h.hPend,
   h.hCB1, h.hCB2⟩

/-- Registration plus checkout of a fresh connection by `Get`. -/
theorem inv_registerGet {opt : Options} {t : PState} (h : Inv opt t) (cd : ConnData)
    (hql : t.checkedOut.length + 1 ≤ t.queueLen) :
    Inv opt { { t with conns := t.conns ++ [t.nextId],
                       heap := heapSet t.heap t.nextId
                         { cd with pooled := true && decide (t.poolSize < t.opt.PoolSize) },
                       poolSize := if (true : Bool) = true ∧ t.poolSize < t.opt.PoolSize
                                   then t.poolSize + 1 else t.poolSize,
                       nextId := t.nextId + 1 }
              with checkedOut := t.checkedOut ++ [t.nextId] } := by
  have hbig := inv_NewConnF_okState h cd true
  have f1 : t.nextId ∈ t.conns ++ [t.nextId] := List.mem_append.mpr (Or.inr (by simp))
  have f2 : t.nextId ∉ t.idleConns := fun hm =>
    absurd (h.hFresh _ (h.hIdleSub _ hm).1) (lt_irrefl _)
  have f3 : t.nextId ∉ t.checkedOut := fun hm =>
    absurd (h.hFresh _ (h.hCO _ hm).1) (lt_irrefl _)
  exact inv_pushCheckedOut hbig f1 f2 f3 hql

theorem inv_GetF {opt : Options} (hg : goodOpt opt) {s : PState} (h : Inv opt s)
    (hq : s.queueLen < chanCap s) (now : Int) (outcome : DialOutcome) :
    Inv opt (GetF now outcome s).2 := by
  have hcl : s.closedFlag = false := h.hClosed
  have hPSpos : 0 < s.opt.PoolSize := by
    unfold chanCap at hq
    omega
  have hu32pos : 0 < u32 s.opt.PoolSize := by
    rw [u32_eq_toNat (by rw [h.hOpt]; exact hg.1) (by rw [h.hOpt]; exact hg.2)]
    omega
  unfold GetF
  rw [if_neg (by simp [hcl])]
  have h0 : Inv opt { s with queueLen := s.queueLen + 1 } :=
    ⟨h.hOpt, h.hClosed, h.hPanic, h.hIdleLen, h.hPool, h.hCap, h.hConnsND,
     h.hIdleND, h.hCOND, h.hIdleSub, h.hCO, h.hFresh,
     Nat.le_succ_of_le h.hQueue, h.hDialErr, h.hPend, h.hCB1, h.hCB2⟩
  dsimp only
  rcases hres : getLoop now { s with queueLen := s.queueLen + 1 } with ⟨r, s1⟩
  have hspec := getLoop_spec now _ h0
  rw [hres] at hspec
  dsimp only at hspec
  obtain ⟨hI1, hco1, hql1, hfacts⟩ := hspec
  cases r with
  | some cn =>
    dsimp only
    obtain ⟨f1, f2, f3, f4⟩ := hfacts cn rfl
    refine inv_pushCheckedOut hI1 f1 f3 ?_ ?_
    · rw [hco1]; exact f4
    · rw [hco1, hql1]
      have := h.hQueue
      omega
  | none =>
    dsimp only
    have hI2 : Inv opt { s1 with statsMisses := s1.statsMisses + 1 } :=
      inv_stats hI1 _ _ _ _
    have hcl2 : ({ s1 with statsMisses := s1.statsMisses + 1 } : PState).closedFlag
        = false := hI2.hClosed
    have hOpt1 : s1.opt = opt := hI1.hOpt
    have hu32s1 : 0 < u32 s1.opt.PoolSize := by
      rw [hOpt1, ← h.hOpt]
      exact hu32pos
    by_cases hb : u32 s1.opt.PoolSize ≤ s1.dialErrorsNum
    · have hne : s1.dialErrorsNum ≠ 0 := by omega
      have hsome := hI1.hDialErr hne
      obtain ⟨e, hLD⟩ : ∃ e, s1.lastDialError = some e :=
        Option.ne_none_iff_exists'.mp hsome
      · have hnc2 : newConnF { s1 with statsMisses := s1.statsMisses + 1 } outcome true
            = ((none, some e), { s1 with statsMisses := s1.statsMisses + 1 }) := by
          rw [newConnF_breaker hcl2 hb outcome true]
          dsimp only
          rw [hLD]
        rw [NewConnF_of_err hnc2]
        refine inv_dropTurn hI2 ?_
        show s1.checkedOut.length ≤ s1.queueLen - 1
        rw [hco1, hql1]
        have := h.hQueue
        omega
    · have hb2 : ¬ u32 ({ s1 with statsMisses := s1.statsMisses + 1 } : PState).opt.PoolSize
          ≤ ({ s1 with statsMisses := s1.statsMisses + 1 } : PState).dialErrorsNum := hb
      cases outcome with
      | fail e =>
        have hnc := newConnF_fail (s := { s1 with statsMisses := s1.statsMisses + 1 })
          hcl2 hb2 e true
        rw [NewConnF_of_err hnc]
        refine inv_dropTurn (inv_failState hI2 (by omega) e) ?_
        show s1.checkedOut.length ≤ s1.queueLen - 1
        rw [hco1, hql1]
        have := h.hQueue
        omega
      | ok tnow cerr =>
        have hnc := newConnF_ok (s := { s1 with statsMisses := s1.statsMisses + 1 })
          hcl2 hb2 tnow cerr true
        rw [NewConnF_of_ok hnc]
        refine inv_registerGet hI2 _ ?_
        show s1.checkedOut.length + 1 ≤ s1.queueLen
        rw [hco1, hql1]
        have := h.hQueue
        omega

/-- `Remove` commutes with taking the gate slot and ghost token first. -/
theorem RemoveF_eq (s : PState) (cn : Nat) :
    RemoveF s cn =
      CloseConnF { s with queueLen := s.queueLen - 1,
                          checkedOut := s.checkedOut.erase cn } cn := by
  unfold RemoveF CloseConnF removeConnF closeConnHeap checkMinIdleConns connClose
  dsimp only
  split_ifs <;> rfl

theorem inv_RemoveF {opt : Options} {s : PState} (h : Inv opt s) {cn : Nat}
    (hco : cn ∈ s.checkedOut) : Inv opt (RemoveF s cn) := by
  rw [RemoveF_eq]
  have hpre : Inv opt { s with queueLen := s.queueLen - 1,
                               checkedOut := s.checkedOut.erase cn } := by
    refine ⟨h.hOpt, h.hClosed, h.hPanic, h.hIdleLen, h.hPool, h.hCap, h.hConnsND,
      h.hIdleND, ?_, h.hIdleSub, ?_, h.hFresh, ?_, h.hDialErr, h.hPend, h.hCB1,
      h.hCB2⟩
    · exact h.hCOND.erase cn
    · intro x hx
      exact h.hCO x (List.erase_subset _ _ hx)
    · show (s.checkedOut.erase cn).length ≤ s.queueLen - 1
      rw [List.length_erase_of_mem hco]
      have h1 : 0 < s.checkedOut.length :=
        List.length_pos.mpr (List.ne_nil_of_mem hco)
      have := h.hQueue
      omega
  refine inv_CloseConnF hpre ?_ ?_
  · show cn ∉ s.idleConns
    exact (h.hCO cn hco).2
  · show cn ∉ s.checkedOut.erase cn
    exact h.hCOND.not_mem_erase

theorem inv_PutF {opt : Options} {s : PState} (h : Inv opt s) {cn : Nat}
    (hco : cn ∈ s.checkedOut) (now : Int) : Inv opt (PutF now s cn) := by
  unfold PutF
  split
  · next hpooled =>
    obtain ⟨hc, hni⟩ := h.hCO cn hco
    have hhp : ∀ x, ((heapSet s.heap cn { s.heap cn with usedTime := now }) x).pooled
        = (s.heap x).pooled := by
      intro x
      by_cases hx : x = cn
      · subst hx; rw [heapSet_same]
      · rw [heapSet_other _ _ _ _ hx]
    refine ⟨h.hOpt, h.hClosed, h.hPanic, ?_, ?_, h.hCap, h.hConnsND, ?_, ?_, ?_,
      ?_, h.hFresh, ?_, h.hDialErr, h.hPend, h.hCB1, h.hCB2⟩
    · show s.idleConnsLen + 1 =
        (((s.idleConns ++ [cn]).length + s.pendingIdleDials + s.leaked : Nat) : Int)
      rw [List.length_append, List.length_singleton]
      have := h.hIdleLen
      push_cast at this ⊢
      omega
    · show s.poolSize =
        ((s.conns.countP
            (fun x => ((heapSet s.heap cn { s.heap cn with usedTime := now }) x).pooled)
          + s.pendingIdleDials + s.leaked : Nat) : Int)
      have hc2 : s.conns.countP
          (fun x => ((heapSet s.heap cn { s.heap cn with usedTime := now }) x).pooled)
          = countPooled s := by
        unfold countPooled
        exact List.countP_congr fun x hx => by rw [hhp x]
      rw [hc2]
      exact h.hPool
    · show (s.idleConns ++ [cn]).Nodup
      rw [List.nodup_append]
      refine ⟨h.hIdleND, List.nodup_singleton _, ?_⟩
      intro a ha hb
      rw [List.mem_singleton] at hb
      subst hb
      exact hni ha
    · exact h.hCOND.erase cn
    · intro x hx
      rw [List.mem_append] at hx
      cases hx with
      | inl hx =>
        obtain ⟨h1, h2⟩ := h.hIdleSub x hx
        refine ⟨h1, ?_⟩
        show ((heapSet s.heap cn _) x).pooled = true
        rw [hhp x]
        exact h2
      | inr hx =>
        rw [List.mem_singleton] at hx
        subst hx
        refine ⟨hc, ?_⟩
        show ((heapSet s.heap x _) x).pooled = true
        rw [hhp x]
        exact hpooled
    · intro x hx
      rw [h.hCOND.mem_erase_iff] at hx
      obtain ⟨hxne, hxco⟩ := hx
      obtain ⟨h1, h2⟩ := h.hCO x hxco
      refine ⟨h1, ?_⟩
      intro hmem
      rw [List.mem_append] at hmem
      cases hmem with
      | inl hmem => exact h2 hmem
      | inr hmem => exact hxne (List.mem_singleton.mp hmem)
    · show (s.checkedOut.erase cn).length ≤ s.queueLen - 1
      rw [List.length_erase_of_mem hco]
      have h1 : 0 < s.checkedOut.length :=
        List.length_pos.mpr (List.ne_nil_of_mem hco)
      have := h.hQueue
      omega
  · exact inv_RemoveF h hco

theorem inv_addIdleDone {opt : Options} {s : PState} (hg : goodOpt opt)
    (h : Inv opt s) (hp : 0 < s.pendingIdleDials) (o : DialOutcome) :
    Inv opt (addIdleDone s o) := by
  unfold addIdleDone
  have hcl0 : ({ s with pendingIdleDials := s.pendingIdleDials - 1 } : PState).closedFlag
      = false := h.hClosed
  have hPSpos : 0 < s.opt.PoolSize := h.hPend hp
  have hu32pos : 0 < u32 s.opt.PoolSize := by
    rw [u32_eq_toNat (by rw [h.hOpt]; exact hg.1) (by rw [h.hOpt]; exact hg.2)]
    omega
  by_cases hb : u32 s.opt.PoolSize ≤ s.dialErrorsNum
  · have hne : s.dialErrorsNum ≠ 0 := by omega
    obtain ⟨e, hLD⟩ : ∃ e, s.lastDialError = some e :=
      Option.ne_none_iff_exists'.mp (h.hDialErr hne)
    have hnc2 : newConnF { s with pendingIdleDials := s.pendingIdleDials - 1 } o true
        = ((none, some e), { s with pendingIdleDials := s.pendingIdleDials - 1 }) := by
      rw [newConnF_breaker hcl0 hb o true]
      dsimp only
      rw [hLD]
    rw [hnc2]
    dsimp only
    refine ⟨h.hOpt, h.hClosed, h.hPanic, ?_, ?_, h.hCap, h.hConnsND, h.hIdleND,
      h.hCOND, h.hIdleSub, h.hCO, h.hFresh, h.hQueue, h.hDialErr, ?_, h.hCB1,
      h.hCB2⟩
    · show s.idleConnsLen =
        ((s.idleConns.length + (s.pendingIdleDials - 1) + (s.leaked + 1) : Nat) : Int)
      have := h.hIdleLen
      push_cast at this ⊢
      omega
    · show s.poolSize =
        ((countPooled s + (s.pendingIdleDials - 1) + (s.leaked + 1) : Nat) : Int)
      have := h.hPool
      push_cast at this ⊢
      omega
    · intro _
      exact hPSpos
  · cases o with
    | fail e =>
      rw [newConnF_fail hcl0 hb e true]
      dsimp only
      have hcap := u32_lt s.opt.PoolSize
      have hmod : (s.dialErrorsNum + 1) % 4294967296 = s.dialErrorsNum + 1 :=
        Nat.mod_eq_of_lt (by omega)
      have hact : s.tryDialActive = 0 := by
        rw [h.hCB2, if_neg]
        rintro ⟨h1, -⟩
        omega
      refine ⟨h.hOpt, h.hClosed, h.hPanic, ?_, ?_, h.hCap, h.hConnsND, h.hIdleND,
        h.hCOND, h.hIdleSub, h.hCO, h.hFresh, h.hQueue, ?_, ?_, ?_, ?_⟩
      · show s.idleConnsLen =
          ((s.idleConns.length + (s.pendingIdleDials - 1) + (s.leaked + 1) : Nat) : Int)
        have := h.hIdleLen
        push_cast at this ⊢
        omega
      · show s.poolSize =
          ((countPooled s + (s.pendingIdleDials - 1) + (s.leaked + 1) : Nat) : Int)
        have := h.hPool
        push_cast at this ⊢
        omega
      · intro _
        show (some e : Option Err) ≠ none
        simp
      · intro _
        exact hPSpos
      · show (s.dialErrorsNum + 1) % 4294967296 ≤ u32 s.opt.PoolSize
        omega
      · show (if (s.dialErrorsNum + 1) % 4294967296 = u32 s.opt.PoolSize
              then s.tryDialActive + 1 else s.tryDialActive) =
          if (s.dialErrorsNum + 1) % 4294967296 = u32 s.opt.PoolSize
              ∧ 0 < u32 s.opt.PoolSize then 1 else 0
        rw [hmod]
        by_cases hcnd : s.dialErrorsNum + 1 = u32 s.opt.PoolSize
        · rw [if_pos hcnd, if_pos ⟨hcnd, by omega⟩, hact]
        · rw [if_neg hcnd, if_neg (by rintro ⟨h1, -⟩; exact hcnd h1), hact]
    | ok tnow cerr =>
      rw [newConnF_ok hcl0 hb tnow cerr true]
      dsimp only
      have hfr : ∀ x ∈ s.conns, x ≠ s.nextId := fun x hx =>
        Nat.ne_of_lt (h.hFresh x hx)
      have hfri : ∀ x ∈ s.idleConns, x ≠ s.nextId := fun x hx =>
        hfr x (h.hIdleSub x hx).1
      have hcnt := countP_append_fresh s.conns s.heap s.nextId
        { endpoint := s.opt.Addr, closed := false, usedTime := tnow,
          createTime := tnow, pooled := true, closeErr := cerr } hfr
      refine ⟨h.hOpt, h.hClosed, h.hPanic, ?_, ?_, h.hCap, ?_, ?_, h.hCOND,
        ?_, ?_, ?_, h.hQueue, h.hDialErr, ?_, h.hCB1, h.hCB2⟩
      · show s.idleConnsLen =
          (((s.idleConns ++ [s.nextId]).length + (s.pendingIdleDials - 1)
            + s.leaked : Nat) : Int)
        rw [List.length_append, List.length_singleton]
        have := h.hIdleLen
        push_cast at this ⊢
        omega
      · show s.poolSize =
          (((s.conns ++ [s.nextId]).countP
              (fun x => ((heapSet s.heap s.nextId
                { endpoint := s.opt.Addr, closed := false, usedTime := tnow,
                  createTime := tnow, pooled := true, closeErr := cerr }) x).pooled)
            + (s.pendingIdleDials - 1) + s.leaked : Nat) : Int)
        rw [hcnt]
        have := h.hPool
        unfold countPooled at this
        simp only [if_true]
        push_cast at this ⊢
        omega
      · show (s.conns ++ [s.nextId]).Nodup
        rw [List.nodup_append]
        refine ⟨h.hConnsND, List.nodup_singleton _, ?_⟩
        intro a ha hb
        rw [List.mem_singleton] at hb
        subst hb
        exact (hfr _ ha) rfl
      · show (s.idleConns ++ [s.nextId]).Nodup
        rw [List.nodup_append]
        refine ⟨h.hIdleND, List.nodup_singleton _, ?_⟩
        intro a ha hb
        rw [List.mem_singleton] at hb
        subst hb
        exact (hfri _ ha) rfl
      · intro x hx
        rw [List.mem_append] at hx
        cases hx with
        | inl hx =>
          obtain ⟨h1, h2⟩ := h.hIdleSub x hx
          refine ⟨List.mem_append.mpr (Or.inl h1), ?_⟩
          show ((heapSet s.heap s.nextId _) x).pooled = true
          rw [heapSet_other _ _ _ _ (hfr x h1)]
          exact h2
        | inr hx =>
          rw [List.mem_singleton] at hx
          subst hx
          refine ⟨List.mem_append.mpr (Or.inr (by simp)), ?_⟩
          show ((heapSet s.heap s.nextId _) s.nextId).pooled = true
          rw [heapSet_same]
      · intro x hx
        obtain ⟨h1, h2⟩ := h.hCO x hx
        refine ⟨List.mem_append.mpr (Or.inl h1), ?_⟩
        intro hmem
        rw [List.mem_append] at hmem
        cases hmem with
        | inl hmem => exact h2 hmem
        | inr hmem => exact (hfr x h1) (List.mem_singleton.mp hmem)
      · intro x hx
        rw [List.mem_append] at hx
        cases hx with
        | inl hx => exact Nat.lt_succ_of_lt (h.hFresh x hx)
        | inr hx =>
          rw [List.mem_singleton] at hx
          subst hx
          exact Nat.lt_succ_self _
      · intro _
        exact hPSpos

theorem reapStale_nil (now : Int) {s : PState} (h : s.idleConns = []) :
    reapStaleConnF now s = (none, s) := by
  unfold reapStaleConnF
  rw [h]

theorem reapStale_cons_stale (now : Int) {s : PState} {cn : Nat} {rest : List Nat}
    (h : s.idleConns = cn :: rest)
    (hst : isStaleConn s.opt (s.heap cn) now = true) :
    reapStaleConnF now s =
      (some cn, { s with idleConns := rest, idleConnsLen := s.idleConnsLen - 1 }) := by
  unfold reapStaleConnF
  rw [h]
  dsimp only
  rw [if_pos hst]

theorem reapStale_cons_fresh (now : Int) {s : PState} {cn : Nat} {rest : List Nat}
    (h : s.idleConns = cn :: rest)
    (hst : isStaleConn s.opt (s.heap cn) now = false) :
    reapStaleConnF now s = (none, s) := by
  unfold reapStaleConnF
  rw [h]
  dsimp only
  rw [if_neg (by simp [hst])]

theorem inv_reapIter {opt : Options} {s : PState} (h : Inv opt s) (now : Int) :
    Inv opt (reapIterF now s).2 := by
  unfold reapIterF
  rcases hidle : s.idleConns with _ | ⟨cn, rest⟩
  · rw [reapStale_nil now hidle]
    exact h
  · rcases hst : isStaleConn s.opt (s.heap cn) now with _ | _
    case false =>
      rw [reapStale_cons_fresh now hidle hst]
      exact h
    case true =>
      rw [reapStale_cons_stale now hidle hst]
      dsimp only
      have hmem : cn ∈ s.idleConns := by rw [hidle]; exact List.mem_cons_self _ _
      have hcons : (cn :: rest).Nodup := by rw [← hidle]; exact h.hIdleND
      obtain ⟨hcnr, hrestnd⟩ := List.nodup_cons.mp hcons
      have hI1 : Inv opt { s with idleConns := rest,
                                   idleConnsLen := s.idleConnsLen - 1 } := by
        refine ⟨h.hOpt, h.hClosed, h.hPanic, ?_, h.hPool, h.hCap, h.hConnsND,
          hrestnd, h.hCOND, ?_, ?_, h.hFresh, h.hQueue, h.hDialErr, h.hPend,
          h.hCB1, h.hCB2⟩
        · show s.idleConnsLen - 1 =
            ((rest.length + s.pendingIdleDials + s.leaked : Nat) : Int)
          have := h.hIdleLen
          rw [hidle] at this
          rw [List.length_cons] at this
          push_cast at this ⊢
          omega
        · intro x hx
          refine h.hIdleSub x ?_
          rw [hidle]
          exact List.mem_cons_of_mem _ hx
        · intro x hx
          obtain ⟨h1, h2⟩ := h.hCO x hx
          refine ⟨h1, ?_⟩
          intro hc
          apply h2
          rw [hidle]
          exact List.mem_cons_of_mem _ hc
      exact inv_stats
        (inv_CloseConnF hI1 hcnr (fun hc => (h.hCO cn hc).2 hmem)) _ _ _ _

theorem inv_tryDialFail {opt : Options} {s : PState} (h : Inv opt s) (e : Err) :
    Inv opt (tryDialFailF s e) := by
  refine ⟨h.hOpt, h.hClosed, h.hPanic, h.hIdleLen, h.hPool, h.hCap, h.hConnsND,
    h.hIdleND, h.hCOND, h.hIdleSub, h.hCO, h.hFresh, h.hQueue, ?_, h.hPend,
    h.hCB1, h.hCB2⟩
  intro _
  show (some e : Option Err) ≠ none
  simp

theorem inv_tryDialOk {opt : Options} {s : PState} (h : Inv opt s) :
    Inv opt (tryDialOkF s) := by
  have hle : s.tryDialActive ≤ 1 := by
    rw [h.hCB2]; split <;> omega
  refine ⟨h.hOpt, h.hClosed, h.hPanic, h.hIdleLen, h.hPool, h.hCap, h.hConnsND,
    h.hIdleND, h.hCOND, h.hIdleSub, h.hCO, h.hFresh, h.hQueue, ?_, h.hPend,
    ?_, ?_⟩
  · intro hx
    exact absurd rfl hx
  · show (0 : Nat) ≤ u32 s.opt.PoolSize
    exact Nat.zero_le _
  · show s.tryDialActive - 1 =
      if (0 : Nat) = u32 s.opt.PoolSize ∧ 0 < u32 s.opt.PoolSize then 1 else 0
    rw [if_neg (by rintro ⟨h1, h2⟩; omega)]
    omega

theorem inv_step {opt : Options} {s s2 : PState} (hg : goodOpt opt)
    (hstep : StepP false s s2) (h : Inv opt s) : Inv opt s2 := by
  cases hstep with
  | getTimeout hcl hq => exact inv_stats h _ _ _ _
  | getOk now outcome hcl hq => exact inv_GetF hg h hq now outcome
  | put cn now hco => exact inv_PutF h hco now
  | removeStep cn hco => exact inv_RemoveF h hco
  | reapIter now hq => exact inv_reapIter h now
  | idleDialDone outcome hp => exact inv_addIdleDone hg h hp outcome
  | tryDialFail e ha hcl => exact inv_tryDialFail h e
  | tryDialOk ha hcl => exact inv_tryDialOk h
  | tryDialExit ha hcl =>
    rw [h.hClosed] at hcl
    cases hcl
  | closeStep hac => cases hac

theorem inv_init (opt : Options) (hg : goodOpt opt) :
    Inv opt (newThriftConnPool opt) := by
  unfold newThriftConnPool
  dsimp only
  induction opt.MinIdleConns.toNat with
  | zero =>
    refine ⟨rfl, rfl, ?_, ?_, ?_, ?_, List.nodup_nil, List.nodup_nil,
      List.nodup_nil, ?_, ?_, ?_, le_refl _, ?_, ?_, Nat.zero_le _, ?_⟩
    · show decide (opt.PoolSize < 0) = false
      rw [decide_eq_false_iff_not]
      have := hg.1
      omega
    · show (0 : Int) = (((List.length [] : Nat) + 0 + 0 : Nat) : Int)
      simp
    · show (0 : Int) = ((List.countP _ [] + 0 + 0 : Nat) : Int)
      simp
    · exact hg.1
    · intro x hx
      cases hx
    · intro x hx
      cases hx
    · intro x hx
      cases hx
    · intro hx
      exact absurd rfl hx
    · intro hx
      exact absurd (le_refl 0) (not_le.mpr hx)
    · show (0 : Nat) = if (0 : Nat) = u32 opt.PoolSize ∧ 0 < u32 opt.PoolSize
          then 1 else 0
      rw [if_neg (by rintro ⟨h1, h2⟩; omega)]
  | succ k ih =>
    rw [Function.iterate_succ_apply']
    exact inv_checkMinIdle ih

theorem inv_reach {opt : Options} {s : PState} (hg : goodOpt opt)
    (hr : Reach false (newThriftConnPool opt) s) : Inv opt s := by
  unfold Reach at hr
  induction hr with
  | refl => exact inv_init opt hg
  | tail _ hstep ih => exact inv_step hg hstep ih

/-! ## Projection lemmas for the remaining operations -/

@[simp] theorem popIdle_dialErrorsNum (s : PState) :
    ((popIdle s).2).dialErrorsNum = s.dialErrorsNum := by
  unfold popIdle
  cases s.idleConns.getLast? <;> simp

@[simp] theorem popIdle_tryDialActive (s : PState) :
    ((popIdle s).2).tryDialActive = s.tryDialActive := by
  unfold popIdle
  cases s.idleConns.getLast? <;> simp

@[simp] theorem popIdle_lastDialError (s : PState) :
    ((popIdle s).2).lastDialError = s.lastDialError := by
  unfold popIdle
  cases s.idleConns.getLast? <;> simp

@[simp] theorem popIdle_nextId (s : PState) :
    ((popIdle s).2).nextId = s.nextId := by
  unfold popIdle
  cases s.idleConns.getLast? <;> simp

@[simp] theorem removeConnF_heap (s : PState) (cn : Nat) :
    (removeConnF s cn).heap = s.heap := by
  unfold removeConnF; split <;> [split <;> simp; rfl]

@[simp] theorem removeConnF_opt (s : PState) (cn : Nat) :
    (removeConnF s cn).opt = s.opt := by
  unfold removeConnF; split <;> [split <;> simp; rfl]

@[simp] theorem removeConnF_dialErrorsNum (s : PState) (cn : Nat) :
    (removeConnF s cn).dialErrorsNum = s.dialErrorsNum := by
  unfold removeConnF; split <;> [split <;> simp; rfl]

@[simp] theorem removeConnF_tryDialActive (s : PState) (cn : Nat) :
    (removeConnF s cn).tryDialActive = s.tryDialActive := by
  unfold removeConnF; split <;> [split <;> simp; rfl]

@[simp] theorem removeConnF_lastDialError (s : PState) (cn : Nat) :
    (removeConnF s cn).lastDialError = s.lastDialError := by
  unfold removeConnF; split <;> [split <;> simp; rfl]

@[simp] theorem removeConnF_nextId (s : PState) (cn : Nat) :
    (removeConnF s cn).nextId = s.nextId := by
  unfold removeConnF; split <;> [split <;> simp; rfl]

theorem removeConnF_conns (s : PState) (cn : Nat) :
    (removeConnF s cn).conns = s.conns.erase cn := by
  unfold removeConnF
  split
  · split <;> simp
  · next hnot => rw [List.erase_of_not_mem hnot]

@[simp] theorem closeConnHeap_opt (s : PState) (cn : Nat) :
    ((closeConnHeap s cn).2).opt = s.opt := rfl

@[simp] theorem closeConnHeap_dialErrorsNum (s : PState) (cn : Nat) :
    ((closeConnHeap s cn).2).dialErrorsNum = s.dialErrorsNum := rfl

@[simp] theorem closeConnHeap_tryDialActive (s : PState) (cn : Nat) :
    ((closeConnHeap s cn).2).tryDialActive = s.tryDialActive := rfl

@[simp] theorem closeConnHeap_lastDialError (s : PState) (cn : Nat) :
    ((closeConnHeap s cn).2).lastDialError = s.lastDialError := rfl

@[simp] theorem closeConnHeap_nextId (s : PState) (cn : Nat) :
    ((closeConnHeap s cn).2).nextId = s.nextId := rfl

@[simp] theorem CloseConnF_opt (s : PState) (cn : Nat) :
    (CloseConnF s cn).opt = s.opt := by
  unfold CloseConnF; simp

@[simp] theorem CloseConnF_dialErrorsNum (s : PState) (cn : Nat) :
    (CloseConnF s cn).dialErrorsNum = s.dialErrorsNum := by
  unfold CloseConnF; simp

@[simp] theorem CloseConnF_tryDialActive (s : PState) (cn : Nat) :
    (CloseConnF s cn).tryDialActive = s.tryDialActive := by
  unfold CloseConnF; simp

@[simp] theorem CloseConnF_lastDialError (s : PState) (cn : Nat) :
    (CloseConnF s cn).lastDialError = s.lastDialError := by
  unfold CloseConnF; simp

@[simp] theorem CloseConnF_nextId (s : PState) (cn : Nat) :
    (CloseConnF s cn).nextId = s.nextId := by
  unfold CloseConnF; simp

theorem CloseConnF_conns (s : PState) (cn : Nat) :
    (CloseConnF s cn).conns = s.conns.erase cn := by
  unfold CloseConnF
  rw [closeConnHeap_conns, removeConnF_conns]

theorem CloseConnF_heap_closed (s : PState) (cn : Nat) :
    ((CloseConnF s cn).heap cn).closed = true := by
  unfold CloseConnF closeConnHeap
  dsimp only
  rw [heapSet_same]
  exact connClose_closed _

theorem getLoopAux_core (now : Int) :
    ∀ (fuel : Nat) (s : PState),
      (getLoopAux now fuel s).2.opt = s.opt
      ∧ (getLoopAux now fuel s).2.closedFlag = s.closedFlag
      ∧ (getLoopAux now fuel s).2.dialErrorsNum = s.dialErrorsNum
      ∧ (getLoopAux now fuel s).2.tryDialActive = s.tryDialActive
      ∧ (getLoopAux now fuel s).2.lastDialError = s.lastDialError
      ∧ (getLoopAux now fuel s).2.nextId = s.nextId := by
  intro fuel
  induction fuel with
  | zero => intro s; exact ⟨rfl, rfl, rfl, rfl, rfl, rfl⟩
  | succ fuel ih =>
    intro s
    rcases hl : s.idleConns.getLast? with _ | cn
    · rw [getLoopAux_none now fuel hl]
      exact ⟨rfl, rfl, rfl, rfl, rfl, rfl⟩
    · rcases hst : isStaleConn ((popIdle s).2).opt (((popIdle s).2).heap cn) now
        with _ | _
      case false =>
        rw [getLoopAux_fresh now fuel hl hst]
        refine ⟨?_, ?_, ?_, ?_, ?_, ?_⟩ <;> simp
      case true =>
        rw [getLoopAux_stale now fuel hl hst]
        obtain ⟨i1, i2, i3, i4, i5, i6⟩ := ih (CloseConnF (popIdle s).2 cn)
        refine ⟨?_, ?_, ?_, ?_, ?_, ?_⟩ <;> simp_all

/-- Fields of the pool state unchanged by the idle-scan loop of `Get`. -/
theorem getLoop_core (now : Int) (s : PState) :
    (getLoop now s).2.opt = s.opt
    ∧ (getLoop now s).2.closedFlag = s.closedFlag
    ∧ (getLoop now s).2.dialErrorsNum = s.dialErrorsNum
    ∧ (getLoop now s).2.tryDialActive = s.tryDialActive
    ∧ (getLoop now s).2.lastDialError = s.lastDialError
    ∧ (getLoop now s).2.nextId = s.nextId :=
  getLoopAux_core now s.idleConns.length s

@[simp] theorem newConnF_state_opt (s : PState) (o : DialOutcome) (p : Bool) :
    ((newConnF s o p).2).opt = s.opt := by
  unfold newConnF
  split
  · rfl
  · split
    · rfl
    · cases o <;> rfl

@[simp] theorem newConnF_state_closedFlag (s : PState) (o : DialOutcome) (p : Bool) :
    ((newConnF s o p).2).closedFlag = s.closedFlag := by
  unfold newConnF
  split
  · rfl
  · split
    · rfl
    · cases o <;> rfl

@[simp] theorem newConnF_state_conns (s : PState) (o : DialOutcome) (p : Bool) :
    ((newConnF s o p).2).conns = s.conns := by
  unfold newConnF
  split
  · rfl
  · split
    · rfl
    · cases o <;> rfl

@[simp] theorem newConnF_state_idleConns (s : PState) (o : DialOutcome) (p : Bool) :
    ((newConnF s o p).2).idleConns = s.idleConns := by
  unfold newConnF
  split
  · rfl
  · split
    · rfl
    · cases o <;> rfl

@[simp] theorem newConnF_state_queueLen (s : PState) (o : DialOutcome) (p : Bool) :
    ((newConnF s o p).2).queueLen = s.queueLen := by
  unfold newConnF
  split
  · rfl
  · split
    · rfl
    · cases o <;> rfl

@[simp] theorem newConnF_state_checkedOut (s : PState) (o : DialOutcome) (p : Bool) :
    ((newConnF s o p).2).checkedOut = s.checkedOut := by
  unfold newConnF
  split
  · rfl
  · split
    · rfl
    · cases o <;> rfl

theorem NewConnF_state_opt (s : PState) (o : DialOutcome) (p : Bool) :
    ((NewConnF s o p).2).opt = s.opt := by
  unfold NewConnF
  rcases hn : newConnF s o p with ⟨⟨cno, eo⟩, t⟩
  try rw [hn]
  have ht : t.opt = s.opt := by
    have h2 := newConnF_state_opt s o p
    rw [hn] at h2
    exact h2
  rcases eo with _ | e
  · rcases cno with _ | cd <;> exact ht
  · rcases cno with _ | cd <;> exact ht

theorem NewConnF_state_closedFlag (s : PState) (o : DialOutcome) (p : Bool) :
    ((NewConnF s o p).2).closedFlag = s.closedFlag := by
  unfold NewConnF
  rcases hn : newConnF s o p with ⟨⟨cno, eo⟩, t⟩
  try rw [hn]
  have ht : t.closedFlag = s.closedFlag := by
    have h2 := newConnF_state_closedFlag s o p
    rw [hn] at h2
    exact h2
  rcases eo with _ | e
  · rcases cno with _ | cd <;> exact ht
  · rcases cno with _ | cd <;> exact ht

theorem addIdleDone_opt (s : PState) (o : DialOutcome) :
    (addIdleDone s o).opt = s.opt := by
  unfold addIdleDone
  rcases hn : newConnF { s with pendingIdleDials := s.pendingIdleDials - 1 } o true
    with ⟨⟨cno, eo⟩, t⟩
  try rw [hn]
  have ht : t.opt = s.opt := by
    have h2 := newConnF_state_opt { s with pendingIdleDials := s.pendingIdleDials - 1 } o true
    rw [hn] at h2
    exact h2
  rcases eo with _ | e
  · rcases cno with _ | cd <;> exact ht
  · rcases cno with _ | cd <;> exact ht

theorem addIdleDone_closedFlag (s : PState) (o : DialOutcome) :
    (addIdleDone s o).closedFlag = s.closedFlag := by
  unfold addIdleDone
  rcases hn : newConnF { s with pendingIdleDials := s.pendingIdleDials - 1 } o true
    with ⟨⟨cno, eo⟩, t⟩
  try rw [hn]
  have ht : t.closedFlag = s.closedFlag := by
    have h2 := newConnF_state_closedFlag
      { s with pendingIdleDials := s.pendingIdleDials - 1 } o true
    rw [hn] at h2
    exact h2
  rcases eo with _ | e
  · rcases cno with _ | cd <;> exact ht
  · rcases cno with _ | cd <;> exact ht

@[simp] theorem RemoveF_opt (s : PState) (cn : Nat) :
    (RemoveF s cn).opt = s.opt := by
  unfold RemoveF
  simp

@[simp] theorem RemoveF_closedFlag (s : PState) (cn : Nat) :
    (RemoveF s cn).closedFlag = s.closedFlag := by
  unfold RemoveF
  simp

@[simp] theorem RemoveF_dialErrorsNum (s : PState) (cn : Nat) :
    (RemoveF s cn).dialErrorsNum = s.dialErrorsNum := by
  unfold RemoveF
  simp

@[simp] theorem RemoveF_tryDialActive (s : PState) (cn : Nat) :
    (RemoveF s cn).tryDialActive = s.tryDialActive := by
  unfold RemoveF
  simp

@[simp] theorem RemoveF_idleConns (s : PState) (cn : Nat) :
    (RemoveF s cn).idleConns = s.idleConns := by
  unfold RemoveF
  simp

theorem RemoveF_conns (s : PState) (cn : Nat) :
    (RemoveF s cn).conns = s.conns.erase cn := by
  unfold RemoveF
  rw [closeConnHeap_conns]
  dsimp only
  rw [removeConnF_conns]

theorem RemoveF_queueLen (s : PState) (cn : Nat) :
    (RemoveF s cn).queueLen = s.queueLen - 1 := by
  unfold RemoveF
  rw [closeConnHeap_queueLen]
  dsimp only
  rw [removeConnF_queueLen]

theorem RemoveF_heap_closed (s : PState) (cn : Nat) :
    ((RemoveF s cn).heap cn).closed = true := by
  unfold RemoveF closeConnHeap
  dsimp only
  rw [heapSet_same]
  exact connClose_closed _

theorem PutF_opt (now : Int) (s : PState) (cn : Nat) :
    (PutF now s cn).opt = s.opt := by
  unfold PutF
  split
  · rfl
  · simp

theorem PutF_closedFlag (now : Int) (s : PState) (cn : Nat) :
    (PutF now s cn).closedFlag = s.closedFlag := by
  unfold PutF
  split
  · rfl
  · simp

theorem PutF_dialErrorsNum (now : Int) (s : PState) (cn : Nat) :
    (PutF now s cn).dialErrorsNum = s.dialErrorsNum := by
  unfold PutF
  split
  · rfl
  · simp

theorem PutF_tryDialActive (now : Int) (s : PState) (cn : Nat) :
    (PutF now s cn).tryDialActive = s.tryDialActive := by
  unfold PutF
  split
  · rfl
  · simp

@[simp] theorem reapStaleConnF_state_opt (now : Int) (s : PState) :
    ((reapStaleConnF now s).2).opt = s.opt := by
  unfold reapStaleConnF
  cases s.idleConns
  · rfl
  · dsimp only
    split <;> rfl

@[simp] theorem reapStaleConnF_state_closedFlag (now : Int) (s : PState) :
    ((reapStaleConnF now s).2).closedFlag = s.closedFlag := by
  unfold reapStaleConnF
  cases s.idleConns
  · rfl
  · dsimp only
    split <;> rfl

@[simp] theorem reapStaleConnF_state_dialErrorsNum (now : Int) (s : PState) :
    ((reapStaleConnF now s).2).dialErrorsNum = s.dialErrorsNum := by
  unfold reapStaleConnF
  cases s.idleConns
  · rfl
  · dsimp only
    split <;> rfl

@[simp] theorem reapStaleConnF_state_tryDialActive (now : Int) (s : PState) :
    ((reapStaleConnF now s).2).tryDialActive = s.tryDialActive := by
  unfold reapStaleConnF
  cases s.idleConns
  · rfl
  · dsimp only
    split <;> rfl

@[simp] theorem reapStaleConnF_state_conns (now : Int) (s : PState) :
    ((reapStaleConnF now s).2).conns = s.conns := by
  unfold reapStaleConnF
  cases s.idleConns
  · rfl
  · dsimp only
    split <;> rfl

theorem reapIterF_opt (now : Int) (s : PState) :
    ((reapIterF now s).2).opt = s.opt := by
  unfold reapIterF
  rcases hr : reapStaleConnF now s with ⟨ro, t⟩
  try rw [hr]
  have ht : t.opt = s.opt := by
    have h2 := reapStaleConnF_state_opt now s
    rw [hr] at h2
    exact h2
  rcases ro with _ | cn
  · exact ht
  · simp [ht]

theorem reapIterF_closedFlag (now : Int) (s : PState) :
    ((reapIterF now s).2).closedFlag = s.closedFlag := by
  unfold reapIterF
  rcases hr : reapStaleConnF now s with ⟨ro, t⟩
  try rw [hr]
  have ht : t.closedFlag = s.closedFlag := by
    have h2 := reapStaleConnF_state_closedFlag now s
    rw [hr] at h2
    exact h2
  rcases ro with _ | cn
  · exact ht
  · simp [ht]

theorem reapIterF_dialErrorsNum (now : Int) (s : PState) :
    ((reapIterF now s).2).dialErrorsNum = s.dialErrorsNum := by
  unfold reapIterF
  rcases hr : reapStaleConnF now s with ⟨ro, t⟩
  try rw [hr]
  have ht : t.dialErrorsNum = s.dialErrorsNum := by
    have h2 := reapStaleConnF_state_dialErrorsNum now s
    rw [hr] at h2
    exact h2
  rcases ro with _ | cn
  · exact ht
  · simp [ht]

theorem reapIterF_tryDialActive (now : Int) (s : PState) :
    ((reapIterF now s).2).tryDialActive = s.tryDialActive := by
  unfold reapIterF
  rcases hr : reapStaleConnF now s with ⟨ro, t⟩
  try rw [hr]
  have ht : t.tryDialActive = s.tryDialActive := by
    have h2 := reapStaleConnF_state_tryDialActive now s
    rw [hr] at h2
    exact h2
  rcases ro with _ | cn
  · exact ht
  · simp [ht]

theorem GetF_opt (now : Int) (o : DialOutcome) (s : PState) :
    ((GetF now o s).2).opt = s.opt := by
  unfold GetF
  split
  · rfl
  · dsimp only
    rcases hres : getLoop now { s with queueLen := s.queueLen + 1 } with ⟨r, s1⟩
    try rw [hres]
    have hcore := getLoop_core now { s with queueLen := s.queueLen + 1 }
    rw [hres] at hcore
    obtain ⟨c1, -, -, -, -, -⟩ := hcore
    cases r with
    | some cn =>
      exact c1
    | none =>
      dsimp only
      rcases hn : NewConnF { s1 with statsMisses := s1.statsMisses + 1 } o true
        with ⟨⟨cno, eo⟩, t⟩
      try rw [hn]
      have ht : t.opt = s.opt := by
        have h2 := NewConnF_state_opt { s1 with statsMisses := s1.statsMisses + 1 } o true
        rw [hn] at h2
        exact h2.trans c1
      rcases eo with _ | e
      · rcases cno with _ | cd <;> exact ht
      · rcases cno with _ | cd <;> exact ht

theorem GetF_closedFlag (now : Int) (o : DialOutcome) (s : PState) :
    ((GetF now o s).2).closedFlag = s.closedFlag := by
  unfold GetF
  split
  · rfl
  · dsimp only
    rcases hres : getLoop now { s with queueLen := s.queueLen + 1 } with ⟨r, s1⟩
    try rw [hres]
    have hcore := getLoop_core now { s with queueLen := s.queueLen + 1 }
    rw [hres] at hcore
    obtain ⟨-, c2, -, -, -, -⟩ := hcore
    cases r with
    | some cn =>
      exact c2
    | none =>
      dsimp only
      rcases hn : NewConnF { s1 with statsMisses := s1.statsMisses + 1 } o true
        with ⟨⟨cno, eo⟩, t⟩
      try rw [hn]
      have ht : t.closedFlag = s.closedFlag := by
        have h2 := NewConnF_state_closedFlag
          { s1 with statsMisses := s1.statsMisses + 1 } o true
        rw [hn] at h2
        exact h2.trans c2
      rcases eo with _ | e
      · rcases cno with _ | cd <;> exact ht
      · rcases cno with _ | cd <;> exact ht

theorem CloseF_opt (s : PState) : ((CloseF s).2).opt = s.opt := by
  unfold CloseF
  split
  · rfl
  · rfl

theorem CloseF_closedFlag (s : PState) (h : s.closedFlag = true) :
    (CloseF s).2 = s := by
  unfold CloseF
  rw [if_pos h]

theorem CloseF_closedFlag_true (s : PState) : ((CloseF s).2).closedFlag = true := by
  unfold CloseF
  split
  · next h => exact h
  · rfl

/-- Every transition preserves the configured options. -/
theorem step_opt {b : Bool} {s s2 : PState} (hstep : StepP b s s2) :
    s2.opt = s.opt := by
  cases hstep with
  | getTimeout hcl hq => rfl
  | getOk now outcome hcl hq => exact GetF_opt now outcome s
  | put cn now hco => exact PutF_opt now s cn
  | removeStep cn hco => exact RemoveF_opt s cn
  | reapIter now hq => exact reapIterF_opt now s
  | idleDialDone outcome hp => exact addIdleDone_opt s outcome
  | tryDialFail e ha hcl => rfl
  | tryDialOk ha hcl => rfl
  | tryDialExit ha hcl => rfl
  | closeStep hac => exact CloseF_opt s

theorem reach_opt {b : Bool} {s0 s : PState} (hr : Reach b s0 s) :
    s.opt = s0.opt := by
  unfold Reach at hr
  induction hr with
  | refl => rfl
  | tail _ hstep ih => exact (step_opt hstep).trans ih

@[simp] theorem reapStaleConnF_state_lastDialError (now : Int) (s : PState) :
    ((reapStaleConnF now s).2).lastDialError = s.lastDialError := by
  unfold reapStaleConnF
  cases s.idleConns
  · rfl
  · dsimp only
    split <;> rfl

theorem reapIterF_lastDialError (now : Int) (s : PState) :
    ((reapIterF now s).2).lastDialError = s.lastDialError := by
  unfold reapIterF
  rcases hr : reapStaleConnF now s with ⟨ro, t⟩
  try rw [hr]
  have ht : t.lastDialError = s.lastDialError := by
    have h2 := reapStaleConnF_state_lastDialError now s
    rw [hr] at h2
    exact h2
  rcases ro with _ | cn
  · exact ht
  · simp [ht]

@[simp] theorem RemoveF_lastDialError (s : PState) (cn : Nat) :
    (RemoveF s cn).lastDialError = s.lastDialError := by
  unfold RemoveF
  simp

theorem PutF_lastDialError (now : Int) (s : PState) (cn : Nat) :
    (PutF now s cn).lastDialError = s.lastDialError := by
  unfold PutF
  split
  · rfl
  · simp

theorem NewConnF_of_nil {s : PState} {o : DialOutcome} {p : Bool} {t : PState}
    (h : newConnF s o p = ((none, none), t)) :
    NewConnF s o p = ((none, none), { t with panicked := true }) := by
  unfold NewConnF
  rw [h]

/-- Joint evolution of the failure counter, the recovery-task count and
the cached dial error across one `Get` on an open pool: either all three
are untouched, or the dial failed below the breaker threshold, the
counter was incremented (starting the recovery task exactly when it
reaches capacity) and an error is cached. -/
theorem GetF_counter_dyn {s : PState} (hcl : s.closedFlag = false)
    (now : Int) (o : DialOutcome) :
    (((GetF now o s).2).dialErrorsNum = s.dialErrorsNum
      ∧ ((GetF now o s).2).tryDialActive = s.tryDialActive
      ∧ ((GetF now o s).2).lastDialError = s.lastDialError)
    ∨ (¬ u32 s.opt.PoolSize ≤ s.dialErrorsNum
      ∧ ((GetF now o s).2).dialErrorsNum = (s.dialErrorsNum + 1) % 4294967296
      ∧ ((GetF now o s).2).tryDialActive
          = (if (s.dialErrorsNum + 1) % 4294967296 = u32 s.opt.PoolSize
             then s.tryDialActive + 1 else s.tryDialActive)
      ∧ (∃ e, ((GetF now o s).2).lastDialError = some e)) := by
  unfold GetF
  rw [if_neg (by simp [hcl])]
  dsimp only
  rcases hres : getLoop now { s with queueLen := s.queueLen + 1 } with ⟨r, s1⟩
  have hcore := getLoop_core now { s with queueLen := s.queueLen + 1 }
  rw [hres] at hcore
  dsimp only at hcore
  obtain ⟨c1, c2, c3, c4, c5, -⟩ := hcore
  cases r with
  | some cn =>
    dsimp only
    exact Or.inl ⟨c3, c4, c5⟩
  | none =>
    dsimp only
    have hcl2 : ({ s1 with statsMisses := s1.statsMisses + 1 } : PState).closedFlag
        = false := by
      show s1.closedFlag = false
      rw [c2]
      exact hcl
    by_cases hb : u32 s.opt.PoolSize ≤ s.dialErrorsNum
    · have hb2 : u32 ({ s1 with statsMisses := s1.statsMisses + 1 } : PState).opt.PoolSize
          ≤ ({ s1 with statsMisses := s1.statsMisses + 1 } : PState).dialErrorsNum := by
        show u32 s1.opt.PoolSize ≤ s1.dialErrorsNum
        rw [c1, c3]
        exact hb
      have hnb := newConnF_breaker hcl2 hb2 o true
      by_cases hLD : s1.lastDialError = none
      · have hnc2 : newConnF { s1 with statsMisses := s1.statsMisses + 1 } o true
            = ((none, none), { s1 with statsMisses := s1.statsMisses + 1 }) := by
          rw [hnb]
          dsimp only
          rw [hLD]
        rw [NewConnF_of_nil hnc2]
        exact Or.inl ⟨c3, c4, c5⟩
      · obtain ⟨e, hLDe⟩ := Option.ne_none_iff_exists'.mp hLD
        have hnc2 : newConnF { s1 with statsMisses := s1.statsMisses + 1 } o true
            = ((none, some e), { s1 with statsMisses := s1.statsMisses + 1 }) := by
          rw [hnb]
          dsimp only
          rw [hLDe]
        rw [NewConnF_of_err hnc2]
        exact Or.inl ⟨c3, c4, c5⟩
    · have hb2 : ¬ u32 ({ s1 with statsMisses := s1.statsMisses + 1 } : PState).opt.PoolSize
          ≤ ({ s1 with statsMisses := s1.statsMisses + 1 } : PState).dialErrorsNum := by
        show ¬ u32 s1.opt.PoolSize ≤ s1.dialErrorsNum
        rw [c1, c3]
        exact hb
      cases o with
      | fail e =>
        have hnc := newConnF_fail (s := { s1 with statsMisses := s1.statsMisses + 1 })
          hcl2 hb2 e true
        rw [NewConnF_of_err hnc]
        refine Or.inr ⟨hb, ?_, ?_, ⟨e, rfl⟩⟩
        · show (s1.dialErrorsNum + 1) % 4294967296 = (s.dialErrorsNum + 1) % 4294967296
          rw [c3]
        · show (if (s1.dialErrorsNum + 1) % 4294967296 = u32 s1.opt.PoolSize
                then s1.tryDialActive + 1 else s1.tryDialActive)
              = (if (s.dialErrorsNum + 1) % 4294967296 = u32 s.opt.PoolSize
                 then s.tryDialActive + 1 else s.tryDialActive)
          rw [c1, c3, c4]
      | ok dnow cerr =>
        have hnc := newConnF_ok (s := { s1 with statsMisses := s1.statsMisses + 1 })
          hcl2 hb2 dnow cerr true
        rw [NewConnF_of_ok hnc]
        exact Or.inl ⟨c3, c4, c5⟩

/-- The same joint evolution for the completion of a speculative
`addIdleConn` dial. -/
theorem addIdleDone_counter_dyn {s : PState} (hcl : s.closedFlag = false)
    (o : DialOutcome) :
    ((addIdleDone s o).dialErrorsNum = s.dialErrorsNum
      ∧ (addIdleDone s o).tryDialActive = s.tryDialActive
      ∧ (addIdleDone s o).lastDialError = s.lastDialError)
    ∨ (¬ u32 s.opt.PoolSize ≤ s.dialErrorsNum
      ∧ (addIdleDone s o).dialErrorsNum = (s.dialErrorsNum + 1) % 4294967296
      ∧ (addIdleDone s o).tryDialActive
          = (if (s.dialErrorsNum + 1) % 4294967296 = u32 s.opt.PoolSize
             then s.tryDialActive + 1 else s.tryDialActive)
      ∧ (∃ e, (addIdleDone s o).lastDialError = some e)) := by
  unfold addIdleDone
  by_cases hb : u32 s.opt.PoolSize ≤ s.dialErrorsNum
  · have hnb := newConnF_breaker
      (s := { s with pendingIdleDials := s.pendingIdleDials - 1 }) hcl hb o true
    by_cases hLD : s.lastDialError = none
    · have hnc2 : newConnF { s with pendingIdleDials := s.pendingIdleDials - 1 } o true
          = ((none, none), { s with pendingIdleDials := s.pendingIdleDials - 1 }) := by
        rw [hnb]
        dsimp only
        rw [hLD]
      rw [hnc2]
      exact Or.inl ⟨rfl, rfl, rfl⟩
    · obtain ⟨e, hLDe⟩ := Option.ne_none_iff_exists'.mp hLD
      have hnc2 : newConnF { s with pendingIdleDials := s.pendingIdleDials - 1 } o true
          = ((none, some e), { s with pendingIdleDials := s.pendingIdleDials - 1 }) := by
        rw [hnb]
        dsimp only
        rw [hLDe]
      rw [hnc2]
      exact Or.inl ⟨rfl, rfl, rfl⟩
  · cases o with
    | fail e =>
      have hnc := newConnF_fail
        (s := { s with pendingIdleDials := s.pendingIdleDials - 1 }) hcl hb e true
      rw [hnc]
      exact Or.inr ⟨hb, rfl, rfl, ⟨e, rfl⟩⟩
    | ok dnow cerr =>
      have hnc := newConnF_ok
        (s := { s with pendingIdleDials := s.pendingIdleDials - 1 }) hcl hb dnow cerr true
      rw [hnc]
      exact Or.inl ⟨rfl, rfl, rfl⟩

/-! ## Claim theorems -/

/-- C1: For every sequence of pool operations (Get, Put, Remove, reaper
passes, min-idle replenishment) starting from a freshly constructed pool,
in every reachable state the idle-connection count `idleConnsLen` never
exceeds `poolSize`, and `poolSize` never exceeds the configured capacity
`opt.PoolSize`. -/
theorem C1_counters_bounded (opt : Options) (s : PState) (hg : goodOpt opt)
    (hr : Reach false (newThriftConnPool opt) s) :
    s.idleConnsLen ≤ s.poolSize ∧ s.poolSize ≤ opt.PoolSize := by
  have h := inv_reach hg hr
  refine ⟨h.idle_le_pool, ?_⟩
  rw [← h.hOpt]
  exact h.hCap

def optC1 : Options :=
  { Addr := "localhost:9090", MaxRetries := 0, DialTimeout := 5000000000,
    ReadTimeout := 3000000000, WriteTimeout := 3000000000,
    IdleTimeout := 10000000000, PoolTimeout := 4000000000,
    IdleCheckFrequency := 60000000000, PoolSize := 4, MinIdleConns := 2 }

theorem C1_witness :
    goodOpt optC1
    ∧ ((newThriftConnPool optC1).idleConnsLen ≤ (newThriftConnPool optC1).poolSize
        ∧ (newThriftConnPool optC1).poolSize ≤ optC1.PoolSize) :=
  ⟨by decide,
   C1_counters_bounded optC1 (newThriftConnPool optC1) (by decide)
     Relation.ReflTransGen.refl⟩

/-- C9: The staleness predicate returns true iff `now - lastUsedAt` is at
least the configured idle timeout, and every non-positive idle timeout
disables staleness (always false). -/
theorem C9_isStale_iff (opt : Options) (c : ConnData) (now : Int) :
    (0 < opt.IdleTimeout →
      (isStaleConn opt c now = true ↔ opt.IdleTimeout ≤ now - c.usedTime))
    ∧ (opt.IdleTimeout ≤ 0 → isStaleConn opt c now = false) := by
  unfold isStaleConn
  constructor
  · intro hpos
    rw [if_neg (by omega)]
    constructor
    · intro hth
      by_cases hc : 0 < opt.IdleTimeout ∧ opt.IdleTimeout ≤ now - c.usedTime
      · exact hc.2
      · rw [if_neg hc] at hth
        cases hth
    · intro hle
      rw [if_pos ⟨hpos, hle⟩]
  · intro hle
    by_cases h0 : opt.IdleTimeout = 0
    · rw [if_pos h0]
    · rw [if_neg h0, if_neg (by rintro ⟨h1, -⟩; omega)]

def optC9 : Options :=
  { Addr := "a", MaxRetries := 0, DialTimeout := 1, ReadTimeout := 1,
    WriteTimeout := 1, IdleTimeout := 10, PoolTimeout := 1,
    IdleCheckFrequency := 1, PoolSize := 1, MinIdleConns := 0 }

def optC9neg : Options := { optC9 with IdleTimeout := -1 }

def connC9 : ConnData :=
  { endpoint := "a", closed := false, usedTime := 5, createTime := 5,
    pooled := true, closeErr := none }

theorem C9_witness :
    isStaleConn optC9 connC9 20 = true ∧ isStaleConn optC9neg connC9 1000 = false := by
  have h1 := (C9_isStale_iff optC9 connC9 20).1 (by decide)
  have h2 := (C9_isStale_iff optC9neg connC9 1000).2 (by decide)
  exact ⟨h1.mpr (by decide), h2⟩

def optC3 : Options :=
  { Addr := "localhost:9090", MaxRetries := 0, DialTimeout := 5000000000,
    ReadTimeout := 3000000000, WriteTimeout := 3000000000,
    IdleTimeout := 10000000000, PoolTimeout := 4000000000,
    IdleCheckFrequency := 60000000000, PoolSize := 1, MinIdleConns := 1 }

/-- C3: The claim says a failed speculative min-idle dial decrements
`poolSize` and `idleConnsLen` back to their prior values.  The code's
`addIdleConn` returns on dial failure WITHOUT rolling the reservation
back: with `PoolSize = 1, MinIdleConns = 1`, construction reserves
`poolSize = idleConnsLen = 1`; after the dial fails both counters still
read 1 although no connection exists, and `checkMinIdleConns` can never
fire again (the capacity is permanently lost). -/
theorem C3_reservation_leaked :
    (newThriftConnPool optC3).poolSize = 1
    ∧ (newThriftConnPool optC3).idleConnsLen = 1
    ∧ (newThriftConnPool optC3).pendingIdleDials = 1
    ∧ (addIdleDone (newThriftConnPool optC3) (DialOutcome.fail (Err.dialFail 0))).poolSize = 1
    ∧ (addIdleDone (newThriftConnPool optC3) (DialOutcome.fail (Err.dialFail 0))).idleConnsLen = 1
    ∧ (addIdleDone (newThriftConnPool optC3) (DialOutcome.fail (Err.dialFail 0))).idleConns = []
    ∧ (addIdleDone (newThriftConnPool optC3) (DialOutcome.fail (Err.dialFail 0))).conns = []
    ∧ (addIdleDone (newThriftConnPool optC3) (DialOutcome.fail (Err.dialFail 0))).pendingIdleDials = 0
    ∧ checkMinIdleConns (addIdleDone (newThriftConnPool optC3) (DialOutcome.fail (Err.dialFail 0)))
        = addIdleDone (newThriftConnPool optC3) (DialOutcome.fail (Err.dialFail 0)) := by
  refine ⟨?_, ?_, ?_, ?_, ?_, ?_, ?_, ?_, ?_⟩ <;> rfl

def optC4 : Options :=
  { Addr := "localhost:9090", MaxRetries := 0, DialTimeout := 0,
    ReadTimeout := 0, WriteTimeout := 0, IdleTimeout := 0, PoolTimeout := 0,
    IdleCheckFrequency := 0, PoolSize := 0, MinIdleConns := 0 }

/-- C4: The claim says invalid option values (capacity < 1, zero timeouts)
are defaulted so construction never yields a zero-capacity unusable pool.
The defaulting function `Options.init` exists and would set
`PoolSize = 10 * NumCPU`, `DialTimeout = 5s`, but it is never invoked:
`NewHBase` passes the raw options straight to `NewThriftConnPool`.  A
README-style `Options{Addr: ...}` therefore produces a pool whose
admission channel has capacity 0, in which no `Get` can ever acquire a
slot (every `Get` ends in the `waitTurn` timeout), in every reachable
state. -/
theorem C4_defaults_never_applied (numCPU : Int) (s : PState)
    (hcpu : 0 < numCPU) (hr : Reach true (newThriftConnPool optC4) s) :
    (Options.initF numCPU optC4).PoolSize = 10 * numCPU
    ∧ 0 < (Options.initF numCPU optC4).PoolSize
    ∧ (Options.initF numCPU optC4).DialTimeout = 5000000000
    ∧ (newThriftConnPool optC4).opt = optC4
    ∧ s.opt.PoolSize = 0
    ∧ chanCap s = 0
    ∧ ¬ s.queueLen < chanCap s := by
  have hopt : s.opt = optC4 := reach_opt hr
  have hps : (Options.initF numCPU optC4).PoolSize = 10 * numCPU := rfl
  refine ⟨hps, ?_, rfl, rfl, ?_, ?_, ?_⟩
  · rw [hps]; omega
  · rw [hopt]; rfl
  · unfold chanCap
    rw [hopt]
    rfl
  · unfold chanCap
    rw [hopt]
    show ¬ s.queueLen < (0 : Int).toNat
    exact Nat.not_lt_zero _

theorem C4_witness :
    (0 : Int) < 8
    ∧ ((Options.initF 8 optC4).PoolSize = 80
        ∧ ¬ (newThriftConnPool optC4).queueLen < chanCap (newThriftConnPool optC4)) := by
  have h := C4_defaults_never_applied 8 (newThriftConnPool optC4) (by decide)
    Relation.ReflTransGen.refl
  exact ⟨by decide, h.1, h.2.2.2.2.2.2⟩

/-- C8: `Put` on a non-pooled (overflow) connection is exactly `Remove`:
the connection is dropped from `conns`, one gate slot is released, the
socket is closed, and nothing is appended to `idleConns`; consequently in
every reachable state every member of `idleConns` is pooled. -/
theorem C8_overflow_discarded :
    (∀ (s : PState) (cn : Nat) (now : Int), (s.heap cn).pooled = false →
      PutF now s cn = RemoveF s cn
      ∧ (RemoveF s cn).idleConns = s.idleConns
      ∧ (RemoveF s cn).conns = s.conns.erase cn
      ∧ ((RemoveF s cn).heap cn).closed = true
      ∧ (RemoveF s cn).queueLen = s.queueLen - 1)
    ∧ (∀ (opt : Options) (s : PState), goodOpt opt →
        Reach false (newThriftConnPool opt) s →
        ∀ cn ∈ s.idleConns, (s.heap cn).pooled = true) := by
  constructor
  · intro s cn now hp
    refine ⟨?_, RemoveF_idleConns s cn, RemoveF_conns s cn,
      RemoveF_heap_closed s cn, RemoveF_queueLen s cn⟩
    unfold PutF
    rw [if_neg (by simp [hp])]
  · intro opt s hg hr cn hcn
    exact ((inv_reach hg hr).hIdleSub cn hcn).2

def stC8 : PState :=
  { opt := optC1, dialErrorsNum := 0, lastDialError := none, queueLen := 1,
    conns := [0], idleConns := [], poolSize := 0, idleConnsLen := 0,
    statsHits := 0, statsMisses := 1, statsTimeouts := 0, statsStaleConns := 0,
    closedFlag := false,
    heap := fun _ => { endpoint := "localhost:9090", closed := false,
                       usedTime := 0, createTime := 0, pooled := false,
                       closeErr := none },
    nextId := 1, pendingIdleDials := 0, tryDialActive := 0, checkedOut := [0],
    leaked := 0, panicked := false }

theorem C8_witness :
    (stC8.heap 0).pooled = false
    ∧ PutF 5 stC8 0 = RemoveF stC8 0
    ∧ (RemoveF stC8 0).idleConns = []
    ∧ (RemoveF stC8 0).conns = []
    ∧ ((RemoveF stC8 0).heap 0).closed = true
    ∧ (RemoveF stC8 0).queueLen = 0 := by
  have h := C8_overflow_discarded.1 stC8 0 5 rfl
  refine ⟨rfl, h.1, h.2.1, ?_, h.2.2.2.1, ?_⟩
  · rw [h.2.2.1]; rfl
  · rw [h.2.2.2.2]; rfl

/-! ## Close -/

/-- The error each connection would contribute to `firstErr`, computed on
the heap as it was when the close loop reached it. -/
def closeObs (h : Nat → ConnData) (cn : Nat) : Option Err :=
  if (h cn).closed then none else (h cn).closeErr

theorem filterMap_congr_fn {f g : Nat → Option Err} :
    ∀ (l : List Nat), (∀ x ∈ l, f x = g x) → l.filterMap f = l.filterMap g := by
  intro l
  induction l with
  | nil => intro _; rfl
  | cons a t ih =>
    intro hfg
    rw [List.filterMap_cons, List.filterMap_cons,
      hfg a (List.mem_cons_self _ _), ih (fun x hx => hfg x (List.mem_cons_of_mem _ hx))]

theorem closeAll_fst_some (l : List Nat) (h : Nat → ConnData) (e : Err) :
    (closeAll l h (some e)).1 = some e := by
  induction l generalizing h with
  | nil => rfl
  | cons a t ih =>
    unfold closeAll
    dsimp only
    rcases hc : (connClose (h a)).1 with _ | e1 <;> exact ih _

theorem closeAll_fst_none (l : List Nat) (h : Nat → ConnData) :
    (closeAll l h none).1 = (l.filterMap (closeObs h)).head? := by
  induction l generalizing h with
  | nil => rfl
  | cons a t ih =>
    unfold closeAll
    dsimp only
    rw [List.filterMap_cons]
    by_cases hcl : (h a).closed
    · have hr : connClose (h a) = (none, h a) := by
        unfold connClose
        rw [if_pos hcl]
      rw [hr]
      dsimp only
      have hobs : closeObs h a = none := by
        unfold closeObs
        rw [if_pos hcl]
      rw [hobs]
      rw [ih]
      congr 1
      apply filterMap_congr_fn
      intro x hx
      unfold closeObs heapSet
      by_cases hxa : x = a
      · subst hxa
        simp
      · simp [hxa]
    · have hr : connClose (h a) = ((h a).closeErr, { h a with closed := true }) := by
        unfold connClose
        rw [if_neg hcl]
      rw [hr]
      dsimp only
      have hobs : closeObs h a = (h a).closeErr := by
        unfold closeObs
        rw [if_neg hcl]
      rw [hobs]
      rcases hce : (h a).closeErr with _ | err
      · rw [ih]
        dsimp only
        congr 1
        apply filterMap_congr_fn
        intro x hx
        unfold closeObs heapSet
        by_cases hxa : x = a
        · subst hxa
          simp [hcl, hce]
        · simp [hxa]
      · rw [closeAll_fst_some]
        rfl

theorem closeAll_heap_mono (l : List Nat) (h : Nat → ConnData) (acc : Option Err)
    (id : Nat) (hcl : (h id).closed = true) :
    (((closeAll l h acc).2) id).closed = true := by
  induction l generalizing h acc with
  | nil => exact hcl
  | cons a t ih =>
    unfold closeAll
    dsimp only
    apply ih
    unfold heapSet
    by_cases hxa : id = a
    · subst hxa
      rw [if_pos rfl]
      exact connClose_closed _
    · rw [if_neg hxa]
      exact hcl

theorem closeAll_heap_mem (l : List Nat) (h : Nat → ConnData) (acc : Option Err)
    (id : Nat) (hmem : id ∈ l) :
    (((closeAll l h acc).2) id).closed = true := by
  induction l generalizing h acc with
  | nil => cases hmem
  | cons a t ih =>
    unfold closeAll
    dsimp only
    rcases List.mem_cons.mp hmem with he | ht
    · subst he
      apply closeAll_heap_mono
      unfold heapSet
      rw [if_pos rfl]
      exact connClose_closed _
    · exact ih _ _ ht

/-- C7: `Close` is idempotent: the first caller (winning the CAS on the
closed flag) closes every tracked connection, clears all tracking
structures, and returns the first close error encountered (nil when every
connection closes cleanly); a later `Close` is a no-op returning the
pool-closed error, and `Stats().TotalConns` is 0 afterwards. -/
theorem C7_close_semantics (s : PState) (hcl : s.closedFlag = false) :
    ((CloseF s).2).conns = []
    ∧ ((CloseF s).2).idleConns = []
    ∧ ((CloseF s).2).poolSize = 0
    ∧ ((CloseF s).2).idleConnsLen = 0
    ∧ ((CloseF s).2).closedFlag = true
    ∧ (∀ cn ∈ s.conns, (((CloseF s).2).heap cn).closed = true)
    ∧ (CloseF s).1 = (s.conns.filterMap (closeObs s.heap)).head?
    ∧ CloseF (CloseF s).2 = (some Err.errClosed, (CloseF s).2)
    ∧ (StatsF (CloseF s).2).TotalConns = 0 := by
  unfold CloseF
  rw [if_neg (by simp [hcl])]
  dsimp only
  refine ⟨rfl, rfl, rfl, rfl, rfl, ?_, ?_, ?_, ?_⟩
  · intro cn hcn
    exact closeAll_heap_mem _ _ _ cn hcn
  · exact closeAll_fst_none _ _
  · rfl
  · rfl

def stC7 : PState :=
  { opt := optC1, dialErrorsNum := 0, lastDialError := none, queueLen := 0,
    conns := [0, 1], idleConns := [1], poolSize := 2, idleConnsLen := 1,
    statsHits := 0, statsMisses := 2, statsTimeouts := 0, statsStaleConns := 0,
    closedFlag := false,
    heap := fun i =>
      if i = 0 then
        { endpoint := "localhost:9090", closed := false, usedTime := 0,
          createTime := 0, pooled := true, closeErr := some (Err.closeFail 7) }
      else
        { endpoint := "localhost:9090", closed := false, usedTime := 0,
          createTime := 0, pooled := true, closeErr := none },
    nextId := 2, pendingIdleDials := 0, tryDialActive := 0, checkedOut := [0],
    leaked := 0, panicked := false }

theorem C7_witness :
    ((CloseF stC7).2).conns = []
    ∧ (CloseF stC7).1 = some (Err.closeFail 7)
    ∧ (((CloseF stC7).2).heap 1).closed = true
    ∧ CloseF (CloseF stC7).2 = (some Err.errClosed, (CloseF stC7).2)
    ∧ (StatsF (CloseF stC7).2).TotalConns = 0 := by
  have h := C7_close_semantics stC7 rfl
  refine ⟨h.1, ?_, h.2.2.2.2.2.1 1 (by decide), h.2.2.2.2.2.2.2.1,
    h.2.2.2.2.2.2.2.2⟩
  rw [h.2.2.2.2.2.2.1]
  decide

/-! ## Close versus Put -/

theorem PutF_conns_nil {s : PState} (now : Int) (cn : Nat) (h : s.conns = []) :
    (PutF now s cn).conns = [] := by
  unfold PutF
  split
  · exact h
  · rw [RemoveF_conns, h]
    rfl

theorem PutF_idle_pooled {s : PState} (now : Int) (cn : Nat)
    (hp : (s.heap cn).pooled = true) :
    (PutF now s cn).idleConns = s.idleConns ++ [cn] := by
  unfold PutF
  rw [if_pos hp]

theorem reapIterF_conns_nil (now : Int) {s : PState} (h : s.conns = []) :
    ((reapIterF now s).2).conns = [] := by
  unfold reapIterF
  rcases hr : reapStaleConnF now s with ⟨ro, t⟩
  try rw [hr]
  have ht : t.conns = [] := by
    have h2 := reapStaleConnF_state_conns now s
    rw [hr] at h2
    dsimp only at h2
    rw [h2, h]
  rcases ro with _ | cn
  · exact ht
  · show ((closeConnHeap (removeConnF t cn) cn).2).conns = []
    rw [closeConnHeap_conns, removeConnF_conns, ht]
    rfl

theorem reapIterF_idle_nil (now : Int) {s : PState} (h : s.idleConns = []) :
    ((reapIterF now s).2).idleConns = [] := by
  unfold reapIterF
  rw [reapStale_nil now h]
  exact h

theorem addIdleDone_closed {s : PState} (h : s.closedFlag = true)
    (o : DialOutcome) :
    addIdleDone s o =
      { s with pendingIdleDials := s.pendingIdleDials - 1,
               leaked := s.leaked + 1 } := by
  unfold addIdleDone
  rw [newConnF_closed
    (show ({ s with pendingIdleDials := s.pendingIdleDials - 1 } : PState).closedFlag
        = true from h) o true]

/-- C2 amended: after Close the tracked set `conns` is and remains empty,
every subsequent `Get` fails with the pool-closed error touching nothing,
and `idleConns` is emptied and remains empty under every operation EXCEPT
`Put` of a pooled connection checked out before Close — such a `Put`
re-appends that connection to `idleConns` (the code has no closed-pool
check in `Put`). -/
theorem C2_closed_pool (b : Bool) (s s2 : PState) (now : Int) (o : DialOutcome) :
    (s.closedFlag = false →
      ((CloseF s).2).closedFlag = true ∧ ((CloseF s).2).conns = []
      ∧ ((CloseF s).2).idleConns = [])
    ∧ (StepP b s s2 → s.closedFlag = true →
        s2.closedFlag = true ∧ (s.conns = [] → s2.conns = []))
    ∧ (s.closedFlag = true → GetF now o s = ((none, some Err.errClosed), s))
    ∧ (StepP b s s2 → s.closedFlag = true → s.idleConns = [] →
        s2.idleConns = []
        ∨ ∃ cn pnow, cn ∈ s.checkedOut ∧ (s.heap cn).pooled = true
            ∧ s2 = PutF pnow s cn ∧ s2.idleConns = [cn]) := by
  refine ⟨?_, ?_, ?_, ?_⟩
  · intro hcl
    unfold CloseF
    rw [if_neg (by simp [hcl])]
    exact ⟨rfl, rfl, rfl⟩
  · intro hstep hcl
    cases hstep with
    | getTimeout hcl2 hq => rw [hcl] at hcl2; cases hcl2
    | getOk gnow go hcl2 hq => rw [hcl] at hcl2; cases hcl2
    | put cn pnow hco =>
      refine ⟨?_, fun hc => PutF_conns_nil pnow cn hc⟩
      rw [PutF_closedFlag]
      exact hcl
    | removeStep cn hco =>
      refine ⟨?_, fun hc => ?_⟩
      · rw [RemoveF_closedFlag]; exact hcl
      · rw [RemoveF_conns, hc]; rfl
    | reapIter rnow hq =>
      refine ⟨?_, fun hc => reapIterF_conns_nil rnow hc⟩
      rw [reapIterF_closedFlag]
      exact hcl
    | idleDialDone io hp =>
      rw [addIdleDone_closed hcl io]
      exact ⟨hcl, fun hc => hc⟩
    | tryDialFail e ha hcl2 => rw [hcl] at hcl2; cases hcl2
    | tryDialOk ha hcl2 => rw [hcl] at hcl2; cases hcl2
    | tryDialExit ha hcl2 => exact ⟨hcl, fun hc => hc⟩
    | closeStep hac =>
      rw [CloseF_closedFlag s hcl]
      exact ⟨hcl, fun hc => hc⟩
  · intro hcl
    unfold GetF
    rw [if_pos (by rw [hcl])]
  · intro hstep hcl hidle
    cases hstep with
    | getTimeout hcl2 hq => rw [hcl] at hcl2; cases hcl2
    | getOk gnow go hcl2 hq => rw [hcl] at hcl2; cases hcl2
    | put cn pnow hco =>
      by_cases hp : (s.heap cn).pooled = true
      · right
        refine ⟨cn, pnow, hco, hp, rfl, ?_⟩
        rw [PutF_idle_pooled pnow cn hp, hidle]
        rfl
      · left
        unfold PutF
        rw [if_neg hp, RemoveF_idleConns]
        exact hidle
    | removeStep cn hco =>
      left
      rw [RemoveF_idleConns]
      exact hidle
    | reapIter rnow hq =>
      left
      exact reapIterF_idle_nil rnow hidle
    | idleDialDone io hp =>
      left
      rw [addIdleDone_closed hcl io]
      exact hidle
    | tryDialFail e ha hcl2 => rw [hcl] at hcl2; cases hcl2
    | tryDialOk ha hcl2 => rw [hcl] at hcl2; cases hcl2
    | tryDialExit ha hcl2 =>
      left
      exact hidle
    | closeStep hac =>
      left
      rw [CloseF_closedFlag s hcl]
      exact hidle

def optC2 : Options :=
  { Addr := "localhost:9090", MaxRetries := 0, DialTimeout := 5000000000,
    ReadTimeout := 3000000000, WriteTimeout := 3000000000, IdleTimeout := 0,
    PoolTimeout := 4000000000, IdleCheckFrequency := 0, PoolSize := 1,
    MinIdleConns := 0 }

def c2s1 : PState := (GetF 0 (DialOutcome.ok 0 none) (newThriftConnPool optC2)).2

def c2s2 : PState := (CloseF c2s1).2

def c2s3 : PState := PutF 1 c2s2 0

/-- C2 counterexample: from a fresh pool (capacity 1), check one
connection out with `Get`, `Close` the pool, then `Put` the connection
back.  The resulting state is reachable, the pool is closed, and
`idleConns = [0]` is NOT empty — refuting the claim that after Close the
idle set is empty and remains empty even when a connection checked out
before Close is Put. -/
theorem C2_counterexample :
    Reach true (newThriftConnPool optC2) c2s3
    ∧ c2s3.closedFlag = true
    ∧ c2s3.idleConns = [0] := by
  refine ⟨?_, rfl, rfl⟩
  exact Relation.ReflTransGen.head
    (StepP.getOk (newThriftConnPool optC2) 0 (DialOutcome.ok 0 none) rfl (by decide))
    (Relation.ReflTransGen.head (StepP.closeStep c2s1 rfl)
      (Relation.ReflTransGen.head (StepP.put c2s2 0 1 (by decide))
        Relation.ReflTransGen.refl))

theorem C2_witness :
    ((CloseF c2s1).2).conns = []
    ∧ GetF 2 (DialOutcome.ok 2 none) c2s2 = ((none, some Err.errClosed), c2s2) := by
  have h1 := (C2_closed_pool true c2s1 c2s1 0 (DialOutcome.ok 0 none)).1 rfl
  have h2 := (C2_closed_pool true c2s2 c2s2 2 (DialOutcome.ok 2 none)).2.2.1 rfl
  exact ⟨h1.2.1, h2⟩

/-- C6: the idle-scan of `Get`.  (1) `popIdle` pops the LAST element of
`idleConns` (most recently returned).  (2) A stale popped connection is
closed in the heap and erased from `conns`, and the scan continues on the
remaining state.  (3) A fresh popped connection is the result, with the
hit counter incremented.  (4) With the idle list exhausted (and the
breaker closed), the miss counter is incremented and a dial is attempted:
on failure the gate slot taken by this `Get` is released and the error is
returned with no connection registered; (5) on success the new connection
is registered in `conns` and returned checked out. -/
theorem C6_get_idle_scan :
    (∀ (s : PState) (l : List Nat) (cn : Nat), s.idleConns = l ++ [cn] →
      (popIdle s).1 = some cn ∧ ((popIdle s).2).idleConns = l)
    ∧ (∀ (now : Int) (s : PState) (cn : Nat),
        s.idleConns.getLast? = some cn →
        isStaleConn ((popIdle s).2).opt (((popIdle s).2).heap cn) now = true →
        getLoop now s = getLoop now (CloseConnF (popIdle s).2 cn)
        ∧ (CloseConnF (popIdle s).2 cn).conns = s.conns.erase cn
        ∧ ((CloseConnF (popIdle s).2 cn).heap cn).closed = true)
    ∧ (∀ (now : Int) (s : PState) (cn : Nat),
        s.idleConns.getLast? = some cn →
        isStaleConn ((popIdle s).2).opt (((popIdle s).2).heap cn) now = false →
        getLoop now s =
          (some cn,
           { (popIdle s).2 with statsHits := ((popIdle s).2).statsHits + 1 }))
    ∧ (∀ (now : Int) (e : Err) (s : PState),
        s.closedFlag = false → s.idleConns = [] →
        ¬ u32 s.opt.PoolSize ≤ s.dialErrorsNum →
        (GetF now (DialOutcome.fail e) s).1 = (none, some e)
        ∧ ((GetF now (DialOutcome.fail e) s).2).conns = s.conns
        ∧ ((GetF now (DialOutcome.fail e) s).2).queueLen = s.queueLen
        ∧ ((GetF now (DialOutcome.fail e) s).2).statsMisses = s.statsMisses + 1
        ∧ ((GetF now (DialOutcome.fail e) s).2).checkedOut = s.checkedOut)
    ∧ (∀ (now dnow : Int) (cerr : Option Err) (s : PState),
        s.closedFlag = false → s.idleConns = [] →
        ¬ u32 s.opt.PoolSize ≤ s.dialErrorsNum →
        (GetF now (DialOutcome.ok dnow cerr) s).1 = (some s.nextId, none)
        ∧ ((GetF now (DialOutcome.ok dnow cerr) s).2).conns = s.conns ++ [s.nextId]
        ∧ ((GetF now (DialOutcome.ok dnow cerr) s).2).statsMisses = s.statsMisses + 1
        ∧ ((GetF now (DialOutcome.ok dnow cerr) s).2).checkedOut
            = s.checkedOut ++ [s.nextId]) := by
  refine ⟨?_, ?_, ?_, ?_, ?_⟩
  · intro s l cn h
    have hl : s.idleConns.getLast? = some cn := by
      rw [h]
      exact List.getLast?_concat _
    constructor
    · unfold popIdle
      rw [hl]
    · rw [popIdle_idleConns_of_getLast s cn hl, h]
      exact List.dropLast_concat
  · intro now s cn hl hst
    refine ⟨getLoop_some_stale now hl hst, ?_, CloseConnF_heap_closed _ cn⟩
    rw [CloseConnF_conns, popIdle_conns]
  · intro now s cn hl hst
    exact getLoop_some_fresh now hl hst
  · intro now e s hcl hidle hb
    have hln : ({ s with queueLen := s.queueLen + 1 } : PState).idleConns.getLast?
        = none := by
      show s.idleConns.getLast? = none
      rw [hidle]
      rfl
    have hget := getLoop_none now hln
    have hnc := newConnF_fail
      (s := { s with queueLen := s.queueLen + 1,
                     statsMisses := s.statsMisses + 1 }) hcl hb e true
    have hN := NewConnF_of_err hnc
    have heq : GetF now (DialOutcome.fail e) s =
        ((none, some e),
         { s with queueLen := s.queueLen + 1 - 1,
                  statsMisses := s.statsMisses + 1,
                  lastDialError := some e,
                  dialErrorsNum := (s.dialErrorsNum + 1) % 4294967296,
                  tryDialActive :=
                    if (s.dialErrorsNum + 1) % 4294967296 = u32 s.opt.PoolSize
                    then s.tryDialActive + 1 else s.tryDialActive }) := by
      unfold GetF
      rw [if_neg (by simp [hcl])]
      dsimp only
      rw [hget]
      dsimp only
      rw [hN]
    rw [heq]
    exact ⟨rfl, rfl, rfl, rfl, rfl⟩
  · intro now dnow cerr s hcl hidle hb
    have hln : ({ s with queueLen := s.queueLen + 1 } : PState).idleConns.getLast?
        = none := by
      show s.idleConns.getLast? = none
      rw [hidle]
      rfl
    have hget := getLoop_none now hln
    have hnc := newConnF_ok
      (s := { s with queueLen := s.queueLen + 1,
                     statsMisses := s.statsMisses + 1 }) hcl hb dnow cerr true
    have hN := NewConnF_of_ok hnc
    have heq : GetF now (DialOutcome.ok dnow cerr) s =
        ((some s.nextId, none),
         { s with queueLen := s.queueLen + 1,
                  statsMisses := s.statsMisses + 1,
                  conns := s.conns ++ [s.nextId],
                  heap := heapSet s.heap s.nextId
                    { endpoint := s.opt.Addr, closed := false, usedTime := dnow,
                      createTime := dnow,
                      pooled := true && decide (s.poolSize < s.opt.PoolSize),
                      closeErr := cerr },
                  poolSize := if true = true ∧ s.poolSize < s.opt.PoolSize
                              then s.poolSize + 1 else s.poolSize,
                  nextId := s.nextId + 1,
                  checkedOut := s.checkedOut ++ [s.nextId] }) := by
      unfold GetF
      rw [if_neg (by simp [hcl])]
      dsimp only
      rw [hget]
      dsimp only
      rw [hN]
    rw [heq]
    exact ⟨rfl, rfl, rfl, rfl⟩

def optC6 : Options :=
  { Addr := "localhost:9090", MaxRetries := 0, DialTimeout := 5000000000,
    ReadTimeout := 0, WriteTimeout := 0, IdleTimeout := 0,
    PoolTimeout := 4000000000, IdleCheckFrequency := 0, PoolSize := 5,
    MinIdleConns := 0 }

def stC6 : PState :=
  { opt := optC6, dialErrorsNum := 0, lastDialError := none, queueLen := 0,
    conns := [1, 2], idleConns := [1, 2], poolSize := 2, idleConnsLen := 2,
    statsHits := 0, statsMisses := 0, statsTimeouts := 0, statsStaleConns := 0,
    closedFlag := false,
    heap := fun _ => { endpoint := "localhost:9090", closed := false,
                       usedTime := 0, createTime := 0, pooled := true,
                       closeErr := none },
    nextId := 3, pendingIdleDials := 0, tryDialActive := 0, checkedOut := [],
    leaked := 0, panicked := false }

def stC6s : PState := { stC6 with opt := { optC6 with IdleTimeout := 1 } }

def stC6e : PState :=
  { stC6 with conns := [], idleConns := [], poolSize := 0, idleConnsLen := 0 }

theorem C6_witness :
    ((popIdle stC6).1 = some 2 ∧ ((popIdle stC6).2).idleConns = [1])
    ∧ (getLoop 5 stC6s = getLoop 5 (CloseConnF (popIdle stC6s).2 2)
       ∧ (CloseConnF (popIdle stC6s).2 2).conns = stC6s.conns.erase 2
       ∧ ((CloseConnF (popIdle stC6s).2 2).heap 2).closed = true)
    ∧ getLoop 5 stC6 =
        (some 2, { (popIdle stC6).2 with statsHits := ((popIdle stC6).2).statsHits + 1 })
    ∧ ((GetF 5 (DialOutcome.fail (Err.dialFail 0)) stC6e).1
            = (none, some (Err.dialFail 0))
       ∧ ((GetF 5 (DialOutcome.fail (Err.dialFail 0)) stC6e).2).queueLen
            = stC6e.queueLen)
    ∧ ((GetF 5 (DialOutcome.ok 5 none) stC6e).1 = (some stC6e.nextId, none)
       ∧ ((GetF 5 (DialOutcome.ok 5 none) stC6e).2).conns
            = stC6e.conns ++ [stC6e.nextId]) := by
  have h4 := C6_get_idle_scan.2.2.2.1 5 (Err.dialFail 0) stC6e rfl rfl (by decide)
  have h5 := C6_get_idle_scan.2.2.2.2 5 5 none stC6e rfl rfl (by decide)
  exact ⟨C6_get_idle_scan.1 stC6 [1] 2 rfl,
         C6_get_idle_scan.2.1 5 stC6s 2 rfl rfl,
         C6_get_idle_scan.2.2.1 5 stC6 2 rfl rfl,
         ⟨h4.1, h4.2.2.1⟩,
         ⟨h5.1, h5.2.1⟩⟩

/-- C5: the dial circuit breaker.  In every reachable state of a pool
with positive (representable) capacity: (1) once `dialErrorsNum` has
reached `uint32(PoolSize)`, `newConn` returns the cached last dial error
— which exists — without dialing and without touching the state, and a
whole `Get` leaves the counter unchanged with an error still cached;
(2) exactly one recovery task is active precisely when the counter sits
at capacity; (3) from a breaker-open state every transition either keeps
the counter (and a cached error) in place, or is the successful recovery
dial, which resets the counter to 0; (4) any transition that starts a
recovery task is the dial failure whose increment makes the counter
reach capacity, and it leaves exactly one task active. -/
theorem C5_circuit_breaker (opt : Options) (s s2 : PState) (now : Int)
    (o : DialOutcome) (p : Bool) (hg : goodOpt opt) (hps : 0 < opt.PoolSize)
    (hr : Reach false (newThriftConnPool opt) s) :
    (u32 s.opt.PoolSize ≤ s.dialErrorsNum →
      (∃ e, s.lastDialError = some e)
      ∧ newConnF s o p = ((none, s.lastDialError), s)
      ∧ ((GetF now o s).2).dialErrorsNum = s.dialErrorsNum
      ∧ (∃ e, ((GetF now o s).2).lastDialError = some e))
    ∧ s.tryDialActive = (if s.dialErrorsNum = u32 s.opt.PoolSize then 1 else 0)
    ∧ (StepP false s s2 → u32 s.opt.PoolSize ≤ s.dialErrorsNum →
        (s2.dialErrorsNum = s.dialErrorsNum ∧ ∃ e, s2.lastDialError = some e)
        ∨ (s2 = tryDialOkF s ∧ s2.dialErrorsNum = 0))
    ∧ (StepP false s s2 → s.tryDialActive < s2.tryDialActive →
        s.dialErrorsNum + 1 = u32 s.opt.PoolSize
        ∧ s2.dialErrorsNum = u32 s.opt.PoolSize
        ∧ s2.tryDialActive = 1) := by
  have h := inv_reach hg hr
  have hcl := h.hClosed
  have hcap : 0 < u32 s.opt.PoolSize := by
    rw [h.hOpt, u32_eq_toNat hg.1 hg.2]
    omega
  refine ⟨?_, ?_, ?_, ?_⟩
  · intro hb
    have hne : s.dialErrorsNum ≠ 0 := by omega
    obtain ⟨e, hLD⟩ : ∃ e, s.lastDialError = some e :=
      Option.ne_none_iff_exists'.mp (h.hDialErr hne)
    rcases GetF_counter_dyn hcl now o with ⟨d1, -, d3⟩ | ⟨d1, -⟩
    · exact ⟨⟨e, hLD⟩, newConnF_breaker hcl hb o p, d1, ⟨e, d3.trans hLD⟩⟩
    · exact absurd hb d1
  · rw [h.hCB2]
    by_cases hc : s.dialErrorsNum = u32 s.opt.PoolSize
    · rw [if_pos ⟨hc, hcap⟩, if_pos hc]
    · rw [if_neg (fun hx => hc hx.1), if_neg hc]
  · intro hstep hb
    have hne : s.dialErrorsNum ≠ 0 := by omega
    obtain ⟨e, hLD⟩ : ∃ e, s.lastDialError = some e :=
      Option.ne_none_iff_exists'.mp (h.hDialErr hne)
    cases hstep with
    | getTimeout hcl2 hq => exact Or.inl ⟨rfl, e, hLD⟩
    | getOk gnow go hcl2 hq =>
      rcases GetF_counter_dyn hcl2 gnow go with ⟨d1, -, d3⟩ | ⟨d1, -⟩
      · exact Or.inl ⟨d1, e, d3.trans hLD⟩
      · exact absurd hb d1
    | put cn pnow hco =>
      exact Or.inl ⟨PutF_dialErrorsNum pnow s cn, e,
        (PutF_lastDialError pnow s cn).trans hLD⟩
    | removeStep cn hco =>
      exact Or.inl ⟨RemoveF_dialErrorsNum s cn, e,
        (RemoveF_lastDialError s cn).trans hLD⟩
    | reapIter rnow hq =>
      exact Or.inl ⟨reapIterF_dialErrorsNum rnow s, e,
        (reapIterF_lastDialError rnow s).trans hLD⟩
    | idleDialDone io hp =>
      rcases addIdleDone_counter_dyn hcl io with ⟨d1, -, d3⟩ | ⟨d1, -⟩
      · exact Or.inl ⟨d1, e, d3.trans hLD⟩
      · exact absurd hb d1
    | tryDialFail e2 ha hcl2 => exact Or.inl ⟨rfl, e2, rfl⟩
    | tryDialOk ha hcl2 => exact Or.inr ⟨rfl, rfl⟩
    | tryDialExit ha hcl2 => rw [hcl] at hcl2; cases hcl2
    | closeStep hac => cases hac
  · intro hstep hlt
    cases hstep with
    | getTimeout hcl2 hq => exact absurd hlt (lt_irrefl _)
    | getOk gnow go hcl2 hq =>
      rcases GetF_counter_dyn hcl2 gnow go with ⟨-, d2, -⟩ | ⟨d1, d2', d2, -⟩
      · rw [d2] at hlt
        exact absurd hlt (lt_irrefl _)
      · have hlt2 := hlt
        rw [d2] at hlt2
        by_cases hc : (s.dialErrorsNum + 1) % 4294967296 = u32 s.opt.PoolSize
        · have hmod : (s.dialErrorsNum + 1) % 4294967296 = s.dialErrorsNum + 1 := by
            have h1 := h.hCB1
            have h2 := u32_lt s.opt.PoolSize
            exact Nat.mod_eq_of_lt (by omega)
          refine ⟨by omega, ?_, ?_⟩
          · rw [d2', hc]
          · rw [d2, if_pos hc]
            have hta : s.tryDialActive = 0 := by
              rw [h.hCB2, if_neg]
              rintro ⟨h1, -⟩
              omega
            omega
        · rw [if_neg hc] at hlt2
          exact absurd hlt2 (lt_irrefl _)
    | put cn pnow hco =>
      rw [PutF_tryDialActive] at hlt
      exact absurd hlt (lt_irrefl _)
    | removeStep cn hco =>
      rw [RemoveF_tryDialActive] at hlt
      exact absurd hlt (lt_irrefl _)
    | reapIter rnow hq =>
      rw [reapIterF_tryDialActive] at hlt
      exact absurd hlt (lt_irrefl _)
    | idleDialDone io hp =>
      rcases addIdleDone_counter_dyn hcl io with ⟨-, d2, -⟩ | ⟨d1, d2', d2, -⟩
      · rw [d2] at hlt
        exact absurd hlt (lt_irrefl _)
      · have hlt2 := hlt
        rw [d2] at hlt2
        by_cases hc : (s.dialErrorsNum + 1) % 4294967296 = u32 s.opt.PoolSize
        · have hmod : (s.dialErrorsNum + 1) % 4294967296 = s.dialErrorsNum + 1 := by
            have h1 := h.hCB1
            have h2 := u32_lt s.opt.PoolSize
            exact Nat.mod_eq_of_lt (by omega)
          refine ⟨by omega, ?_, ?_⟩
          · rw [d2', hc]
          · rw [d2, if_pos hc]
            have hta : s.tryDialActive = 0 := by
              rw [h.hCB2, if_neg]
              rintro ⟨h1, -⟩
              omega
            omega
        · rw [if_neg hc] at hlt2
          exact absurd hlt2 (lt_irrefl _)
    | tryDialFail e2 ha hcl2 => exact absurd hlt (lt_irrefl _)
    | tryDialOk ha hcl2 =>
      exact absurd hlt (by show ¬ s.tryDialActive < s.tryDialActive - 1; omega)
    | tryDialExit ha hcl2 => rw [hcl] at hcl2; cases hcl2
    | closeStep hac => cases hac

def optC5 : Options :=
  { Addr := "localhost:9090", MaxRetries := 0, DialTimeout := 5000000000,
    ReadTimeout := 0, WriteTimeout := 0, IdleTimeout := 0,
    PoolTimeout := 4000000000, IdleCheckFrequency := 0, PoolSize := 1,
    MinIdleConns := 0 }

def stC5 : PState :=
  (GetF 0 (DialOutcome.fail (Err.dialFail 0)) (newThriftConnPool optC5)).2

theorem C5_witness :
    u32 stC5.opt.PoolSize ≤ stC5.dialErrorsNum
    ∧ (∃ e, stC5.lastDialError = some e)
    ∧ newConnF stC5 (DialOutcome.ok 7 none) true
        = ((none, stC5.lastDialError), stC5)
    ∧ stC5.tryDialActive
        = (if stC5.dialErrorsNum = u32 stC5.opt.PoolSize then 1 else 0) := by
  have h := C5_circuit_breaker optC5 stC5 stC5 7 (DialOutcome.ok 7 none) true
    (by decide) (by decide)
    (Relation.ReflTransGen.single
      (StepP.getOk (newThriftConnPool optC5) 0 (DialOutcome.fail (Err.dialFail 0))
        rfl (by decide)))
  have hb : u32 stC5.opt.PoolSize ≤ stC5.dialErrorsNum := by decide
  exact ⟨hb, (h.1 hb).1, (h.1 hb).2.1, h.2.1⟩

/-- The pre-replenishment pool state built by `NewThriftConnPool`
(pool.go:46-58) before its `MinIdleConns` calls to `checkMinIdleConns`. -/
def baseState (opt : Options) : PState :=
  { opt := opt, dialErrorsNum := 0, lastDialError := none, queueLen := 0,
    conns := [], idleConns := [], poolSize := 0, idleConnsLen := 0,
    statsHits := 0, statsMisses := 0, statsTimeouts := 0, statsStaleConns := 0,
    closedFlag := false,
    heap := fun _ => { endpoint := "", closed := true, usedTime := 0,
                       createTime := 0, pooled := false, closeErr := none },
    nextId := 0, pendingIdleDials := 0, tryDialActive := 0, checkedOut := [],
    leaked := 0, panicked := decide (opt.PoolSize < 0) }

theorem newThriftConnPool_eq (opt : Options) :
    newThriftConnPool opt
      = checkMinIdleConns^[opt.MinIdleConns.toNat] (baseState opt) := rfl

/-- Each of the first `MinIdleConns` replenishment calls made by the
constructor reserves one more pool slot and one more idle slot without
touching `idleConns` itself. -/
theorem checkMinIdle_iter (opt : Options) (hm : 0 < opt.MinIdleConns)
    (hmp : opt.MinIdleConns ≤ opt.PoolSize) :
    ∀ k : Nat, ((k : Nat) : Int) ≤ opt.MinIdleConns →
      (checkMinIdleConns^[k] (baseState opt)).opt = opt
      ∧ (checkMinIdleConns^[k] (baseState opt)).idleConns = []
      ∧ (checkMinIdleConns^[k] (baseState opt)).poolSize = ((k : Nat) : Int)
      ∧ (checkMinIdleConns^[k] (baseState opt)).idleConnsLen = ((k : Nat) : Int)
      ∧ (checkMinIdleConns^[k] (baseState opt)).pendingIdleDials = k := by
  intro k
  induction k with
  | zero =>
    intro _
    exact ⟨rfl, rfl, rfl, rfl, rfl⟩
  | succ k ih =>
    intro hk
    have hk' : ((k : Nat) : Int) ≤ opt.MinIdleConns := by
      push_cast at hk ⊢
      omega
    obtain ⟨i1, i2, i3, i4, i5⟩ := ih hk'
    rw [Function.iterate_succ_apply']
    generalize hT : checkMinIdleConns^[k] (baseState opt) = t at i1 i2 i3 i4 i5 ⊢
    unfold checkMinIdleConns
    have h1 : ¬ t.opt.MinIdleConns = 0 := by
      rw [i1]
      omega
    have h2 : t.poolSize < t.opt.PoolSize ∧ t.idleConnsLen < t.opt.MinIdleConns := by
      rw [i1, i3, i4]
      constructor
      · push_cast at hk
        omega
      · push_cast at hk
        omega
    rw [if_neg h1, if_pos h2]
    refine ⟨i1, i2, ?_, ?_, ?_⟩
    · show t.poolSize + 1 = ((k + 1 : Nat) : Int)
      rw [i3]
      push_cast
      ring
    · show t.idleConnsLen + 1 = ((k + 1 : Nat) : Int)
      rw [i4]
      push_cast
      ring
    · show t.pendingIdleDials + 1 = k + 1
      rw [i5]

/-- A failed speculative dial never touches `idleConns` or
`idleConnsLen`; it only consumes the pending task (whatever branch of
`newConn` it lands in). -/
theorem addIdleDone_fail_counts (s : PState) (e : Err) :
    (addIdleDone s (DialOutcome.fail e)).opt = s.opt
    ∧ (addIdleDone s (DialOutcome.fail e)).idleConns = s.idleConns
    ∧ (addIdleDone s (DialOutcome.fail e)).idleConnsLen = s.idleConnsLen
    ∧ (addIdleDone s (DialOutcome.fail e)).pendingIdleDials
        = s.pendingIdleDials - 1 := by
  unfold addIdleDone
  by_cases hcl : s.closedFlag = true
  · rw [newConnF_closed
      (show ({ s with pendingIdleDials := s.pendingIdleDials - 1 } : PState).closedFlag
          = true from hcl) (DialOutcome.fail e) true]
    exact ⟨rfl, rfl, rfl, rfl⟩
  · have hcl2 : s.closedFlag = false := by
      revert hcl
      cases s.closedFlag <;> simp
    by_cases hb : u32 s.opt.PoolSize ≤ s.dialErrorsNum
    · have hnb := newConnF_breaker
        (s := { s with pendingIdleDials := s.pendingIdleDials - 1 }) hcl2 hb
        (DialOutcome.fail e) true
      by_cases hLD : s.lastDialError = none
      · have hnc2 : newConnF { s with pendingIdleDials := s.pendingIdleDials - 1 }
            (DialOutcome.fail e) true
            = ((none, none), { s with pendingIdleDials := s.pendingIdleDials - 1 }) := by
          rw [hnb]
          dsimp only
          rw [hLD]
        rw [hnc2]
        exact ⟨rfl, rfl, rfl, rfl⟩
      · obtain ⟨e2, hLDe⟩ := Option.ne_none_iff_exists'.mp hLD
        have hnc2 : newConnF { s with pendingIdleDials := s.pendingIdleDials - 1 }
            (DialOutcome.fail e) true
            = ((none, some e2), { s with pendingIdleDials := s.pendingIdleDials - 1 }) := by
          rw [hnb]
          dsimp only
          rw [hLDe]
        rw [hnc2]
        exact ⟨rfl, rfl, rfl, rfl⟩
    · have hnc := newConnF_fail
        (s := { s with pendingIdleDials := s.pendingIdleDials - 1 }) hcl2 hb e true
      rw [hnc]
      exact ⟨rfl, rfl, rfl, rfl⟩

theorem addIdleDone_fail_iter (e : Err) :
    ∀ (k : Nat) (s : PState),
      ((fun t => addIdleDone t (DialOutcome.fail e))^[k] s).opt = s.opt
      ∧ ((fun t => addIdleDone t (DialOutcome.fail e))^[k] s).idleConns = s.idleConns
      ∧ ((fun t => addIdleDone t (DialOutcome.fail e))^[k] s).idleConnsLen
          = s.idleConnsLen
      ∧ ((fun t => addIdleDone t (DialOutcome.fail e))^[k] s).pendingIdleDials
          = s.pendingIdleDials - k := by
  intro k
  induction k with
  | zero =>
    intro s
    exact ⟨rfl, rfl, rfl, rfl⟩
  | succ k ih =>
    intro s
    rw [Function.iterate_succ_apply']
    obtain ⟨i1, i2, i3, i4⟩ := ih s
    obtain ⟨a1, a2, a3, a4⟩ := addIdleDone_fail_counts
      ((fun t => addIdleDone t (DialOutcome.fail e))^[k] s) e
    refine ⟨a1.trans i1, a2.trans i2, a3.trans i3, ?_⟩
    rw [a4, i4]
    omega

/-- The completions of the constructor's speculative dials, all failing,
form a legal run of the system. -/
theorem reach_failAll (opt : Options) (e : Err) :
    ∀ k : Nat, k ≤ (newThriftConnPool opt).pendingIdleDials →
      Reach false (newThriftConnPool opt)
        ((fun t => addIdleDone t (DialOutcome.fail e))^[k] (newThriftConnPool opt)) := by
  intro k
  induction k with
  | zero =>
    intro _
    exact Relation.ReflTransGen.refl
  | succ k ih =>
    intro hk
    rw [Function.iterate_succ_apply']
    refine Relation.ReflTransGen.tail (ih (by omega)) ?_
    refine StepP.idleDialDone _ (DialOutcome.fail e) ?_
    have h4 := (addIdleDone_fail_iter e k (newThriftConnPool opt)).2.2.2
    rw [h4]
    omega

/-- The state after every one of the constructor's `MinIdleConns`
speculative dials has completed with a failure. -/
def failAllF (opt : Options) (e : Err) : PState :=
  (fun t => addIdleDone t (DialOutcome.fail e))^[opt.MinIdleConns.toNat]
    (newThriftConnPool opt)

/-- C10: immediately after construction with `0 < MinIdleConns ≤
PoolSize`, `idleConnsLen` (hence `IdleLen` and `Stats().IdleConns`)
already equals `MinIdleConns` while `idleConns` is still empty — the
counter counts speculative reservations, not established connections.
If all the pending dials fail (a legal run), the counter stays at
`MinIdleConns` with `idleConns` still empty and nothing pending:
`Stats().IdleConns` exceeds the actual idle-list length permanently. -/
theorem C10_idleLen_counts_reservations (opt : Options) (e : Err)
    (hg : goodOpt opt) (hm : 0 < opt.MinIdleConns)
    (hmp : opt.MinIdleConns ≤ opt.PoolSize) :
    (newThriftConnPool opt).idleConns = []
    ∧ (newThriftConnPool opt).idleConnsLen = opt.MinIdleConns
    ∧ (newThriftConnPool opt).pendingIdleDials = opt.MinIdleConns.toNat
    ∧ IdleLenF (newThriftConnPool opt) = opt.MinIdleConns
    ∧ (StatsF (newThriftConnPool opt)).IdleConns = opt.MinIdleConns.toNat
    ∧ Reach false (newThriftConnPool opt) (failAllF opt e)
    ∧ (failAllF opt e).idleConns = []
    ∧ (failAllF opt e).idleConnsLen = opt.MinIdleConns
    ∧ (failAllF opt e).pendingIdleDials = 0 := by
  have hg2 := hg.2
  have htn : ((opt.MinIdleConns.toNat : Nat) : Int) = opt.MinIdleConns :=
    Int.toNat_of_nonneg (by omega)
  obtain ⟨b1, b2, b3, b4, b5⟩ :=
    checkMinIdle_iter opt hm hmp opt.MinIdleConns.toNat (le_of_eq htn)
  have hNi : (newThriftConnPool opt).idleConns = [] := b2
  have hlen : (newThriftConnPool opt).idleConnsLen = opt.MinIdleConns := by
    rw [htn] at b4
    exact b4
  have hpend : (newThriftConnPool opt).pendingIdleDials = opt.MinIdleConns.toNat := b5
  obtain ⟨f1, f2, f3, f4⟩ :=
    addIdleDone_fail_iter e opt.MinIdleConns.toNat (newThriftConnPool opt)
  refine ⟨hNi, hlen, hpend, hlen, ?_, ?_, ?_, ?_, ?_⟩
  · show u32 (newThriftConnPool opt).idleConnsLen = opt.MinIdleConns.toNat
    rw [hlen, u32_eq_toNat (by omega) (by omega)]
  · exact reach_failAll opt e opt.MinIdleConns.toNat (le_of_eq hpend.symm)
  · show ((fun t => addIdleDone t (DialOutcome.fail e))^[opt.MinIdleConns.toNat]
        (newThriftConnPool opt)).idleConns = []
    exact f2.trans hNi
  · show ((fun t => addIdleDone t (DialOutcome.fail e))^[opt.MinIdleConns.toNat]
        (newThriftConnPool opt)).idleConnsLen = opt.MinIdleConns
    exact f3.trans hlen
  · show ((fun t => addIdleDone t (DialOutcome.fail e))^[opt.MinIdleConns.toNat]
        (newThriftConnPool opt)).pendingIdleDials = 0
    rw [f4, hpend]
    exact Nat.sub_self _

def optC10 : Options :=
  { Addr := "localhost:9090", MaxRetries := 0, DialTimeout := 5000000000,
    ReadTimeout := 0, WriteTimeout := 0, IdleTimeout := 0,
    PoolTimeout := 4000000000, IdleCheckFrequency := 0, PoolSize := 3,
    MinIdleConns := 2 }

theorem C10_witness :
    (newThriftConnPool optC10).idleConns = []
    ∧ (newThriftConnPool optC10).idleConnsLen = 2
    ∧ (StatsF (newThriftConnPool optC10)).IdleConns = 2
    ∧ (failAllF optC10 (Err.dialFail 0)).idleConns = []
    ∧ (failAllF optC10 (Err.dialFail 0)).idleConnsLen = 2
    ∧ (failAllF optC10 (Err.dialFail 0)).pendingIdleDials = 0 := by
  have h := C10_idleLen_counts_reservations optC10 (Err.dialFail 0)
    (by decide) (by decide) (by decide)
  exact ⟨h.1, h.2.1, h.2.2.2.2.1, h.2.2.2.2.2.2.1, h.2.2.2.2.2.2.2.1,
         h.2.2.2.2.2.2.2.2⟩

end Gohbase
